import Mathlib

/-!
Verification of the sudoku engine in `src/services/api.ts` /
`src/composables/useSudokuGame.ts` (types and configuration from
`src/types/sudoku.ts`).

Cells of a grid hold JavaScript values `number | null`; the only numbers
that ever reach a cell are integers and (through `parseInt` on a
non-numeric string) `NaN`, so a cell is modelled as `Option JsNum` with
`JsNum` an integer or `NaN`.  JavaScript strict equality `===` and the
`SameValueZero` equality used by `Set` are modelled explicitly.
-/

set_option synthInstance.maxSize 1024

namespace Sudoku

/-- A JavaScript number as it can appear in this program: an integer, or
`NaN` (produced by `parseInt` on input with no leading digits). -/
inductive JsNum where
  | nan : JsNum
  | int : Int → JsNum
deriving DecidableEq

/-- JavaScript strict equality `===` on numbers: `NaN` equals nothing. -/
def jsEq : JsNum → JsNum → Bool
  | JsNum.nan, _ => false
  | JsNum.int _, JsNum.nan => false
  | JsNum.int a, JsNum.int b => a == b

/-- The `SameValueZero` equality used by JavaScript `Set` membership:
like `===` except that `NaN` matches `NaN`. -/
def svzEq : JsNum → JsNum → Bool
  | JsNum.nan, JsNum.nan => true
  | JsNum.nan, JsNum.int _ => false
  | JsNum.int _, JsNum.nan => false
  | JsNum.int a, JsNum.int b => a == b

/-- JavaScript `<` against an integer constant: false when the left side
is `NaN`. -/
def jsLt : JsNum → Int → Bool
  | JsNum.nan, _ => false
  | JsNum.int a, b => a < b

/-- JavaScript `>` against an integer constant: false when the left side
is `NaN`. -/
def jsGt : JsNum → Int → Bool
  | JsNum.nan, _ => false
  | JsNum.int a, b => a > b

/-- `CellValue = number | null` from `src/types/sudoku.ts`. -/
abbrev Cell := Option JsNum

/-- `cell === num` for `cell : number | null` and a number `num`:
`null === num` is false. -/
def jsEqCell : Cell → JsNum → Bool
  | none, _ => false
  | some v, n => jsEq v n

/-- `cell === other` for two `number | null` values (used for
`numValue !== oldValue` in `updateCell`). -/
def jsEqVal : Cell → Cell → Bool
  | none, none => true
  | none, some _ => false
  | some _, none => false
  | some v, some w => jsEq v w

/-- `SudokuGrid = CellValue[][]` from `src/types/sudoku.ts`. -/
abbrev Grid := List (List Cell)

/-- `grid[row][col]`; out-of-range access is read as empty. -/
def getCell (g : Grid) (row col : Nat) : Cell :=
  (g.getD row []).getD col none

/-- `grid[row][col] = v` (no-op out of range, like `List.set`). -/
def setCell (g : Grid) (row col : Nat) (v : Cell) : Grid :=
  g.set row ((g.getD row []).set col v)

/-- The grid is a well-formed 9×9 matrix (the shape every grid in the
program actually has; JavaScript would throw on a ragged grid). -/
def WF (g : Grid) : Prop :=
  g.length = 9 ∧ ∀ row ∈ g, row.length = 9

instance : DecidablePred WF := fun g =>
  decidable_of_iff (g.length = 9 ∧ ∀ row ∈ g, row.length = 9) Iff.rfl

/-- The digits tried by the solver and hint loops, `for num = 1..9`. -/
def digits : List Int := [1, 2, 3, 4, 5, 6, 7, 8, 9]

/-- `isValidMove(grid, row, col, num)` from `useSudokuGame.ts`: `num` is
reported valid iff no cell of row `row`, of column `col`, or of the 3×3
box containing `(row, col)` is `=== num`.  All 27 scanned positions are
compared, the cell `(row, col)` itself included. -/
def isValidMove (grid : Grid) (row col : Nat) (num : JsNum) : Bool :=
  ((List.range 9).all fun x => ! jsEqCell (getCell grid row x) num) &&
  ((List.range 9).all fun x => ! jsEqCell (getCell grid x col) num) &&
  ((List.range 3).all fun i => (List.range 3).all fun j =>
    ! jsEqCell (getCell grid (row / 3 * 3 + i) (col / 3 * 3 + j)) num)

/-- Row-major scan for the first empty cell starting at flat index `k`
(`row = k / 9`, `col = k % 9`); the fuel is `81 - k` at every call, so
the scan covers exactly the 81 cells.  This is the
`for row / for col / if (grid[row][col] === null)` scan of `solveGrid`. -/
def firstEmptyAux (g : Grid) : Nat → Nat → Option (Nat × Nat)
  | 0, _ => none
  | fuel + 1, k =>
    if getCell g (k / 9) (k % 9) = none then some (k / 9, k % 9)
    else firstEmptyAux g fuel (k + 1)

/-- The first empty cell of the grid in row-major order, if any. -/
def firstEmpty (g : Grid) : Option (Nat × Nat) :=
  firstEmptyAux g 81 0

/-- The `for num = 1..9` loop body of `solveGrid`: place a valid digit,
recurse; on failure of the recursive call reset the cell to `null` and
try the next digit; when the digits run out report failure with the grid
as the loop left it. -/
def tryNums (recur : Grid → Bool × Grid) (g : Grid) (r c : Nat) :
    List Int → Bool × Grid
  | [] => (false, g)
  | n :: rest =>
    if isValidMove g r c (JsNum.int n) then
      match recur (setCell g r c (some (JsNum.int n))) with
      | (true, g2) => (true, g2)
      | (false, g2) => tryNums recur (setCell g2 r c none) r c rest
    else tryNums recur g r c rest

/-- `solveGrid(grid)` from `useSudokuGame.ts`, with the in-place mutation
made explicit: the function returns the success flag together with the
grid as the call leaves it.  Each recursive call fills the first empty
cell, so a fuel of 82 is never exhausted on a 9×9 grid (proved below). -/
def solveGridAux : Nat → Grid → Bool × Grid
  | 0, g => (false, g)
  | fuel + 1, g =>
    match firstEmpty g with
    | none => (true, g)
    | some (r, c) => tryNums (solveGridAux fuel) g r c digits

/-- `solveGrid(grid)`: `true` and the solved grid, or `false` and the
grid as the failed search leaves it. -/
def solveGrid (g : Grid) : Bool × Grid :=
  solveGridAux 82 g

/-- Two coordinates share a row, a column, or a 3×3 box: the cells
scanned by `isValidMove`. -/
def isPeer (r c r2 c2 : Nat) : Prop :=
  r2 = r ∨ c2 = c ∨ (r2 / 3 = r / 3 ∧ c2 / 3 = c / 3)

instance (r c r2 c2 : Nat) : Decidable (isPeer r c r2 c2) :=
  decidable_of_iff (r2 = r ∨ c2 = c ∨ (r2 / 3 = r / 3 ∧ c2 / 3 = c / 3)) Iff.rfl

/-- `g2` is a completion of `g` consistent with the constraint checker:
it is full, it preserves every originally filled cell, and it fills every
originally empty cell with a digit 1..9 that differs from the value of
every other cell of its row, column, and box.  A placement passes
`isValidMove` at placement time (in any order of placement) exactly when
the final grid satisfies this predicate on the originally empty cells. -/
def Completion (g g2 : Grid) : Prop :=
  (∀ r < 9, ∀ c < 9, getCell g2 r c ≠ none) ∧
  (∀ r < 9, ∀ c < 9, getCell g r c ≠ none → getCell g2 r c = getCell g r c) ∧
  (∀ r < 9, ∀ c < 9, getCell g r c = none →
    (∃ n ∈ digits, getCell g2 r c = some (JsNum.int n)) ∧
    (∀ r2 < 9, ∀ c2 < 9, isPeer r c r2 c2 ∧ ¬(r2 = r ∧ c2 = c) →
      getCell g2 r2 c2 ≠ getCell g2 r c))

instance (g g2 : Grid) : Decidable (Completion g g2) :=
  decidable_of_iff
    ((∀ r < 9, ∀ c < 9, getCell g2 r c ≠ none) ∧
     (∀ r < 9, ∀ c < 9, getCell g r c ≠ none → getCell g2 r c = getCell g r c) ∧
     (∀ r < 9, ∀ c < 9, getCell g r c = none →
       (∃ n ∈ digits, getCell g2 r c = some (JsNum.int n)) ∧
       (∀ r2 < 9, ∀ c2 < 9, isPeer r c r2 c2 ∧ ¬(r2 = r ∧ c2 = c) →
         getCell g2 r2 c2 ≠ getCell g2 r c)))
    Iff.rfl

/-- Number of empty cells among the 81 cells of the grid. -/
def emptiesCount (g : Grid) : Nat :=
  (List.range 81).countP fun k => decide (getCell g (k / 9) (k % 9) = none)

/-! ### List access lemmas -/

theorem list_getD_set_self {α : Type} (l : List α) (i : Nat) (a d : α)
    (h : i < l.length) : (l.set i a).getD i d = a := by
  rw [List.getD_eq_getElem _ _ (by simpa using h), List.getElem_set_self]

theorem list_getD_set_ne {α : Type} (l : List α) (i j : Nat) (a d : α)
    (h : i ≠ j) : (l.set i a).getD j d = l.getD j d := by
  rcases Nat.lt_or_ge j l.length with hj | hj
  · rw [List.getD_eq_getElem _ _ (by simpa using hj), List.getD_eq_getElem _ _ hj,
      List.getElem_set_ne h]
  · rw [List.getD_eq_default _ _ (by simpa using hj), List.getD_eq_default _ _ hj]

theorem list_set_getD_self {α : Type} (l : List α) (i : Nat) (d : α)
    (h : i < l.length) : l.set i (l.getD i d) = l := by
  apply List.ext_getElem
  · simp
  · intro n h1 h2
    rcases eq_or_ne i n with rfl | hne
    · rw [List.getElem_set_self, List.getD_eq_getElem _ _ h]
    · rw [List.getElem_set_ne hne]

theorem list_mem_set_cases {α : Type} :
    ∀ (l : List α) (i : Nat) (a x : α), x ∈ l.set i a → x = a ∨ x ∈ l := by
  intro l
  induction l with
  | nil => intro i a x hx; simp at hx
  | cons b t ih =>
    intro i a x hx
    cases i with
    | zero =>
      rcases List.mem_cons.1 hx with rfl | hx
      · exact Or.inl rfl
      · exact Or.inr (List.mem_cons_of_mem _ hx)
    | succ j =>
      rcases List.mem_cons.1 hx with rfl | hx
      · exact Or.inr (List.mem_cons_self _ _)
      · rcases ih j a x hx with h | h
        · exact Or.inl h
        · exact Or.inr (List.mem_cons_of_mem _ h)

/-! ### Grid access lemmas -/

theorem getCell_setCell_self (g : Grid) (r c : Nat) (v : Cell)
    (hWF : WF g) (hr : r < 9) (hc : c < 9) :
    getCell (setCell g r c v) r c = v := by
  have hrl : r < g.length := by rw [hWF.1]; exact hr
  have hrow : (g.getD r []).length = 9 := by
    rw [List.getD_eq_getElem _ _ hrl]
    exact hWF.2 _ (List.getElem_mem hrl)
  unfold getCell setCell
  rw [list_getD_set_self _ _ _ _ (by simpa using hrl),
    list_getD_set_self _ _ _ _ (by rw [hrow]; exact hc)]

theorem getCell_setCell_ne (g : Grid) (r c : Nat) (v : Cell) (r2 c2 : Nat)
    (h : ¬(r2 = r ∧ c2 = c)) :
    getCell (setCell g r c v) r2 c2 = getCell g r2 c2 := by
  unfold getCell setCell
  rcases eq_or_ne r2 r with rfl | hne
  · have hc2 : c2 ≠ c := fun hcc => h ⟨rfl, hcc⟩
    rcases Nat.lt_or_ge r2 g.length with hrl | hrl
    · rw [list_getD_set_self _ _ _ _ (by simpa using hrl),
        list_getD_set_ne _ _ _ _ _ (Ne.symm hc2)]
    · rw [List.set_eq_of_length_le (by simpa using hrl)]
  · rw [list_getD_set_ne _ _ _ _ _ (Ne.symm hne)]

theorem setCell_setCell (g : Grid) (r c : Nat) (v w : Cell) :
    setCell (setCell g r c v) r c w = setCell g r c w := by
  unfold setCell
  rcases Nat.lt_or_ge r g.length with hrl | hrl
  · rw [list_getD_set_self _ _ _ _ (by simpa using hrl), List.set_set, List.set_set]
  · rw [List.set_eq_of_length_le (by simpa using hrl),
      List.set_eq_of_length_le (by simpa using hrl),
      List.set_eq_of_length_le (by simpa using hrl)]

theorem setCell_none_of_none (g : Grid) (r c : Nat)
    (h : getCell g r c = none) : setCell g r c none = g := by
  unfold getCell at h
  unfold setCell
  rcases Nat.lt_or_ge r g.length with hrl | hrl
  · rcases Nat.lt_or_ge c (g.getD r []).length with hcl | hcl
    · calc g.set r ((g.getD r []).set c none)
          = g.set r ((g.getD r []).set c ((g.getD r []).getD c none)) := by rw [h]
        _ = g.set r (g.getD r []) := by rw [list_set_getD_self _ _ _ hcl]
        _ = g := list_set_getD_self g r [] hrl
    · rw [List.set_eq_of_length_le hcl]
      exact list_set_getD_self g r [] hrl
  · exact List.set_eq_of_length_le hrl

theorem WF_setCell (g : Grid) (r c : Nat) (v : Cell) (hWF : WF g) :
    WF (setCell g r c v) := by
  rcases Nat.lt_or_ge r g.length with hrl | hrl
  · constructor
    · rw [setCell, List.length_set]; exact hWF.1
    · intro row hrow
      rcases list_mem_set_cases _ _ _ _ hrow with rfl | hmem
      · rw [List.length_set, List.getD_eq_getElem _ _ hrl]
        exact hWF.2 _ (List.getElem_mem hrl)
      · exact hWF.2 _ hmem
  · rw [setCell, List.set_eq_of_length_le hrl]; exact hWF

/-! ### First-empty-cell scan lemmas -/

theorem firstEmptyAux_none (g : Grid) :
    ∀ (fuel k : Nat), firstEmptyAux g fuel k = none →
      ∀ j, k ≤ j → j < k + fuel → getCell g (j / 9) (j % 9) ≠ none := by
  intro fuel
  induction fuel with
  | zero => intro k _ j _ h2; omega
  | succ m ih =>
    intro k h j hj1 hj2
    unfold firstEmptyAux at h
    by_cases hc : getCell g (k / 9) (k % 9) = none
    · simp [hc] at h
    · rw [if_neg hc] at h
      rcases Nat.eq_or_lt_of_le hj1 with rfl | hlt
      · exact hc
      · exact ih (k + 1) h j hlt (by omega)

theorem firstEmptyAux_some (g : Grid) :
    ∀ (fuel k r c : Nat), firstEmptyAux g fuel k = some (r, c) →
      ∃ j, k ≤ j ∧ j < k + fuel ∧ r = j / 9 ∧ c = j % 9 ∧
        getCell g r c = none ∧
        ∀ i, k ≤ i → i < j → getCell g (i / 9) (i % 9) ≠ none := by
  intro fuel
  induction fuel with
  | zero => intro k r c h; simp [firstEmptyAux] at h
  | succ m ih =>
    intro k r c h
    unfold firstEmptyAux at h
    by_cases hc : getCell g (k / 9) (k % 9) = none
    · rw [if_pos hc] at h
      obtain ⟨hr, hcc⟩ : k / 9 = r ∧ k % 9 = c := by
        constructor <;> [exact congrArg Prod.fst (Option.some_injective _ h);
          exact congrArg Prod.snd (Option.some_injective _ h)]
      refine ⟨k, le_refl k, by omega, hr.symm, hcc.symm, by rw [← hr, ← hcc]; exact hc, ?_⟩
      intro i h1 h2; omega
    · rw [if_neg hc] at h
      obtain ⟨j, hj1, hj2, hj3, hj4, hj5, hj6⟩ := ih (k + 1) r c h
      refine ⟨j, by omega, by omega, hj3, hj4, hj5, ?_⟩
      intro i h1 h2
      rcases Nat.eq_or_lt_of_le h1 with rfl | hlt
      · exact hc
      · exact hj6 i hlt h2

theorem firstEmpty_none (g : Grid) (h : firstEmpty g = none) :
    ∀ r < 9, ∀ c < 9, getCell g r c ≠ none := by
  intro r hr c hc
  have := firstEmptyAux_none g 81 0 h (r * 9 + c) (by omega) (by omega)
  have hdiv : (r * 9 + c) / 9 = r := by omega
  have hmod : (r * 9 + c) % 9 = c := by omega
  rwa [hdiv, hmod] at this

theorem firstEmpty_some (g : Grid) (r c : Nat) (h : firstEmpty g = some (r, c)) :
    r < 9 ∧ c < 9 ∧ getCell g r c = none ∧
      ∀ r2 c2, c2 < 9 → r2 * 9 + c2 < r * 9 + c → getCell g r2 c2 ≠ none := by
  obtain ⟨j, _, hj2, hj3, hj4, hj5, hj6⟩ := firstEmptyAux_some g 81 0 r c h
  refine ⟨by omega, by omega, hj5, ?_⟩
  intro r2 c2 hc2 hlt
  have hj : r2 * 9 + c2 < j := by omega
  have := hj6 (r2 * 9 + c2) (by omega) hj
  have hdiv : (r2 * 9 + c2) / 9 = r2 := by omega
  have hmod : (r2 * 9 + c2) % 9 = c2 := by omega
  rwa [hdiv, hmod] at this

/-! ### Counting lemmas -/

theorem countP_le_pointwise (p q : Nat → Bool) :
    ∀ l : List Nat, (∀ x ∈ l, q x = true → p x = true) →
      l.countP q ≤ l.countP p := by
  intro l
  induction l with
  | nil => intro _; simp
  | cons a t ih =>
    intro h
    have ht := ih fun x hx => h x (List.mem_cons_of_mem _ hx)
    rw [List.countP_cons, List.countP_cons]
    by_cases hqa : q a = true
    · rw [hqa, h a (List.mem_cons_self _ _) hqa]; omega
    · simp only [Bool.not_eq_true] at hqa
      rw [hqa]; simp; omega

theorem countP_lt_flip (p q : Nat → Bool) (k0 : Nat) :
    ∀ l : List Nat, k0 ∈ l → p k0 = true → q k0 = false →
      (∀ x ∈ l, x ≠ k0 → q x = p x) → l.countP q < l.countP p := by
  intro l
  induction l with
  | nil => intro h; simp at h
  | cons a t ih =>
    intro hmem hp hq hagree
    rw [List.countP_cons, List.countP_cons]
    rcases eq_or_ne a k0 with heq | hne
    · have hmono : t.countP q ≤ t.countP p := by
        apply countP_le_pointwise p q t
        intro x hx hqx
        rcases eq_or_ne x k0 with rfl | hxa
        · rw [hq] at hqx; exact absurd hqx (by simp)
        · rw [← hagree x (List.mem_cons_of_mem _ hx) hxa]; exact hqx
      rw [heq, hp, hq]
      simp only [if_true, if_false, Bool.false_eq_true, Bool.true_eq_false, reduceIte]
      omega
    · have hk0t : k0 ∈ t := by
        rcases List.mem_cons.1 hmem with h | h
        · exact absurd h.symm hne
        · exact h
      have ha := hagree a (List.mem_cons_self _ _) hne
      have := ih hk0t hp hq fun x hx => hagree x (List.mem_cons_of_mem _ hx)
      rw [ha]; omega

theorem emptiesCount_le (g : Grid) : emptiesCount g ≤ 81 := by
  calc emptiesCount g ≤ (List.range 81).length := List.countP_le_length _
    _ = 81 := List.length_range 81

theorem emptiesCount_setCell_some (g : Grid) (r c : Nat) (v : JsNum)
    (hWF : WF g) (hr : r < 9) (hc : c < 9) (hnone : getCell g r c = none) :
    emptiesCount (setCell g r c (some v)) < emptiesCount g := by
  unfold emptiesCount
  apply countP_lt_flip _ _ (r * 9 + c) (List.range 81)
  · rw [List.mem_range]; omega
  · have hdiv : (r * 9 + c) / 9 = r := by omega
    have hmod : (r * 9 + c) % 9 = c := by omega
    rw [hdiv, hmod]; simpa using hnone
  · have hdiv : (r * 9 + c) / 9 = r := by omega
    have hmod : (r * 9 + c) % 9 = c := by omega
    rw [hdiv, hmod]
    simp [getCell_setCell_self g r c (some v) hWF hr hc]
  · intro x _ hxne
    have : ¬(x / 9 = r ∧ x % 9 = c) := by
      rintro ⟨h1, h2⟩
      exact hxne (by omega)
    rw [getCell_setCell_ne g r c (some v) _ _ this]

/-! ### Constraint checker lemmas -/

theorem isValidMove_iff (g : Grid) (r c : Nat) (num : JsNum) :
    isValidMove g r c num = true ↔
      (∀ x < 9, jsEqCell (getCell g r x) num = false) ∧
      (∀ x < 9, jsEqCell (getCell g x c) num = false) ∧
      (∀ i < 3, ∀ j < 3,
        jsEqCell (getCell g (r / 3 * 3 + i) (c / 3 * 3 + j)) num = false) := by
  simp [isValidMove, List.all_eq_true, List.mem_range, Bool.not_eq_true', and_assoc]

theorem peer_not_eq_of_isValidMove (g : Grid) (r c r2 c2 : Nat) (num : JsNum)
    (hr2 : r2 < 9) (hc2 : c2 < 9) (hpeer : isPeer r c r2 c2)
    (hvalid : isValidMove g r c num = true) :
    jsEqCell (getCell g r2 c2) num = false := by
  obtain ⟨hrow, hcol, hbox⟩ := (isValidMove_iff g r c num).1 hvalid
  rcases hpeer with rfl | rfl | ⟨hbr, hbc⟩
  · exact hrow c2 hc2
  · exact hcol r2 hr2
  · have h1 : r / 3 * 3 + r2 % 3 = r2 := by omega
    have h2 : c / 3 * 3 + c2 % 3 = c2 := by omega
    have := hbox (r2 % 3) (by omega) (c2 % 3) (by omega)
    rwa [h1, h2] at this

theorem isValidMove_of_peers (g : Grid) (r c : Nat) (num : JsNum)
    (hr : r < 9) (hc : c < 9)
    (h : ∀ r2 < 9, ∀ c2 < 9, isPeer r c r2 c2 →
      jsEqCell (getCell g r2 c2) num = false) :
    isValidMove g r c num = true := by
  rw [isValidMove_iff]
  refine ⟨?_, ?_, ?_⟩
  · intro x hx
    exact h r hr x hx (Or.inl rfl)
  · intro x hx
    exact h x hx c hc (Or.inr (Or.inl rfl))
  · intro i hi j hj
    refine h (r / 3 * 3 + i) (by omega) (c / 3 * 3 + j) (by omega)
      (Or.inr (Or.inr ⟨by omega, by omega⟩))

theorem jsEqCell_int_false_iff (cell : Cell) (n : Int) :
    jsEqCell cell (JsNum.int n) = false ↔ cell ≠ some (JsNum.int n) := by
  cases cell with
  | none => simp [jsEqCell]
  | some v =>
    cases v with
    | nan => simp [jsEqCell, jsEq]
    | int a => simp [jsEqCell, jsEq]

theorem isPeer_symm (r c r2 c2 : Nat) (h : isPeer r c r2 c2) :
    isPeer r2 c2 r c := by
  rcases h with h | h | ⟨h1, h2⟩
  · exact Or.inl h.symm
  · exact Or.inr (Or.inl h.symm)
  · exact Or.inr (Or.inr ⟨h1.symm, h2.symm⟩)

/-! ### Solver: failure leaves the grid unchanged -/

theorem tryNums_false (recur : Grid → Bool × Grid)
    (hrec : ∀ g, (recur g).1 = false → (recur g).2 = g)
    (g : Grid) (r c : Nat) (hg : getCell g r c = none) :
    ∀ l, (tryNums recur g r c l).1 = false → (tryNums recur g r c l).2 = g := by
  intro l
  induction l with
  | nil => intro _; rfl
  | cons n rest ih =>
    intro h
    by_cases hv : isValidMove g r c (JsNum.int n) = true
    · rcases hrek : recur (setCell g r c (some (JsNum.int n))) with ⟨b, g2⟩
      cases b with
      | true =>
        rw [tryNums, if_pos hv, hrek] at h
        simp at h
      | false =>
        have hg2 : g2 = setCell g r c (some (JsNum.int n)) := by
          have := hrec (setCell g r c (some (JsNum.int n))) (by rw [hrek])
          rw [hrek] at this
          exact this
        have hback : setCell g2 r c none = g := by
          rw [hg2, setCell_setCell, setCell_none_of_none g r c hg]
        rw [tryNums, if_pos hv, hrek] at h ⊢
        simp only at h ⊢
        rw [hback] at h ⊢
        exact ih h
    · rw [tryNums, if_neg hv] at h ⊢
      exact ih h

theorem solveGridAux_false (fuel : Nat) :
    ∀ g, (solveGridAux fuel g).1 = false → (solveGridAux fuel g).2 = g := by
  induction fuel with
  | zero => intro g _; rfl
  | succ m ih =>
    intro g h
    rcases hfe : firstEmpty g with _ | ⟨r, c⟩
    · rw [solveGridAux, hfe] at h
      simp at h
    · rw [solveGridAux, hfe] at h ⊢
      have hcell : getCell g r c = none := (firstEmpty_some g r c hfe).2.2.1
      exact tryNums_false (solveGridAux m) ih g r c hcell digits h

/-! ### Solver: shape of a successful run of the digit loop -/

theorem tryNums_true (recur : Grid → Bool × Grid)
    (hrec : ∀ g, (recur g).1 = false → (recur g).2 = g)
    (g : Grid) (r c : Nat) (hg : getCell g r c = none) :
    ∀ l, (tryNums recur g r c l).1 = true →
      ∃ n ∈ l, isValidMove g r c (JsNum.int n) = true ∧
        (recur (setCell g r c (some (JsNum.int n)))).1 = true ∧
        (tryNums recur g r c l).2 = (recur (setCell g r c (some (JsNum.int n)))).2 := by
  intro l
  induction l with
  | nil => intro h; simp [tryNums] at h
  | cons n rest ih =>
    intro h
    by_cases hv : isValidMove g r c (JsNum.int n) = true
    · rcases hrek : recur (setCell g r c (some (JsNum.int n))) with ⟨b, g2⟩
      cases b with
      | true =>
        refine ⟨n, List.mem_cons_self _ _, hv, by rw [hrek], ?_⟩
        rw [tryNums, if_pos hv, hrek]
      | false =>
        have hg2 : g2 = setCell g r c (some (JsNum.int n)) := by
          have := hrec (setCell g r c (some (JsNum.int n))) (by rw [hrek])
          rw [hrek] at this
          exact this
        have hback : setCell g2 r c none = g := by
          rw [hg2, setCell_setCell, setCell_none_of_none g r c hg]
        rw [tryNums, if_pos hv, hrek] at h ⊢
        simp only at h ⊢
        rw [hback] at h ⊢
        obtain ⟨n2, hmem, h1, h2, h3⟩ := ih h
        exact ⟨n2, List.mem_cons_of_mem _ hmem, h1, h2, h3⟩
    · rw [tryNums, if_neg hv] at h ⊢
      obtain ⟨n2, hmem, h1, h2, h3⟩ := ih h
      exact ⟨n2, List.mem_cons_of_mem _ hmem, h1, h2, h3⟩

theorem tryNums_of_exists (recur : Grid → Bool × Grid)
    (hrec : ∀ g, (recur g).1 = false → (recur g).2 = g)
    (g : Grid) (r c : Nat) (hg : getCell g r c = none) :
    ∀ l, (∃ n ∈ l, isValidMove g r c (JsNum.int n) = true ∧
        (recur (setCell g r c (some (JsNum.int n)))).1 = true) →
      (tryNums recur g r c l).1 = true := by
  intro l
  induction l with
  | nil => intro h; simp at h
  | cons m rest ih =>
    intro h
    obtain ⟨n, hmem, hval, hrek1⟩ := h
    by_cases hvm : isValidMove g r c (JsNum.int m) = true
    · rcases hrek : recur (setCell g r c (some (JsNum.int m))) with ⟨b, g2⟩
      cases b with
      | true => rw [tryNums, if_pos hvm, hrek]
      | false =>
        have hg2 : g2 = setCell g r c (some (JsNum.int m)) := by
          have := hrec (setCell g r c (some (JsNum.int m))) (by rw [hrek])
          rw [hrek] at this
          exact this
        have hback : setCell g2 r c none = g := by
          rw [hg2, setCell_setCell, setCell_none_of_none g r c hg]
        rw [tryNums, if_pos hvm, hrek]
        simp only
        rw [hback]
        apply ih
        refine ⟨n, ?_, hval, hrek1⟩
        rcases List.mem_cons.1 hmem with rfl | hmem2
        · rw [hrek] at hrek1
          exact absurd hrek1 (by simp)
        · exact hmem2
    · rw [tryNums, if_neg hvm]
      apply ih
      refine ⟨n, ?_, hval, hrek1⟩
      rcases List.mem_cons.1 hmem with rfl | hmem2
      · exact absurd hval hvm
      · exact hmem2

/-! ### Solver soundness: a successful run returns a completion -/

theorem solveGridAux_sound (fuel : Nat) :
    ∀ g, WF g → (solveGridAux fuel g).1 = true →
      Completion g (solveGridAux fuel g).2 := by
  induction fuel with
  | zero => intro g _ h; simp [solveGridAux] at h
  | succ m ih =>
    intro g hWF h
    rcases hfe : firstEmpty g with _ | ⟨r, c⟩
    · rw [solveGridAux, hfe] at h ⊢
      refine ⟨?_, ?_, ?_⟩
      · intro a ha b hb; exact firstEmpty_none g hfe a ha b hb
      · intro a _ b _ _; rfl
      · intro a ha b hb hnone
        exact absurd hnone (firstEmpty_none g hfe a ha b hb)
    · rw [solveGridAux, hfe] at h ⊢
      obtain ⟨hr, hc, hcell, _⟩ := firstEmpty_some g r c hfe
      obtain ⟨n, hnl, hv, hrek1, hres2⟩ :=
        tryNums_true (solveGridAux m) (solveGridAux_false m) g r c hcell digits h
      rw [hres2]
      have hWF1 : WF (setCell g r c (some (JsNum.int n))) := WF_setCell g r c _ hWF
      have hcomp1 := ih (setCell g r c (some (JsNum.int n))) hWF1 hrek1
      have hg1rc : getCell (setCell g r c (some (JsNum.int n))) r c =
          some (JsNum.int n) := getCell_setCell_self g r c _ hWF hr hc
      have hg2rc : getCell (solveGridAux m (setCell g r c (some (JsNum.int n)))).2 r c =
          some (JsNum.int n) := by
        have := hcomp1.2.1 r hr c hc (by rw [hg1rc]; simp)
        rw [this, hg1rc]
      refine ⟨hcomp1.1, ?_, ?_⟩
      · intro a ha b hb hne0
        have hab : ¬(a = r ∧ b = c) := by
          rintro ⟨rfl, rfl⟩
          exact hne0 hcell
        have heq1 : getCell (setCell g r c (some (JsNum.int n))) a b = getCell g a b :=
          getCell_setCell_ne g r c _ a b hab
        have := hcomp1.2.1 a ha b hb (by rw [heq1]; exact hne0)
        rw [this, heq1]
      · intro a ha b hb hnone
        by_cases hab : a = r ∧ b = c
        · obtain ⟨rfl, rfl⟩ := hab
          constructor
          · exact ⟨n, hnl, hg2rc⟩
          · intro r2 hr2 c2 hc2 hcond
            obtain ⟨hpeer, hne⟩ := hcond
            rw [hg2rc]
            by_cases h2none : getCell g r2 c2 = none
            · have h2none1 : getCell (setCell g a b (some (JsNum.int n))) r2 c2 = none := by
                rw [getCell_setCell_ne g a b _ r2 c2 hne]
                exact h2none
              have hdist := (hcomp1.2.2 r2 hr2 c2 hc2 h2none1).2 a ha b hb
                ⟨isPeer_symm a b r2 c2 hpeer, fun hx => hne ⟨hx.1.symm, hx.2.symm⟩⟩
              intro heq
              exact hdist (by rw [hg2rc, heq])
            · have hfalse := peer_not_eq_of_isValidMove g a b r2 c2 _ hr2 hc2 hpeer hv
              have hne2 : getCell g r2 c2 ≠ some (JsNum.int n) :=
                (jsEqCell_int_false_iff _ _).1 hfalse
              have hkeep1 : getCell (setCell g a b (some (JsNum.int n))) r2 c2 =
                  getCell g r2 c2 := getCell_setCell_ne g a b _ r2 c2 hne
              have hkeep2 := hcomp1.2.1 r2 hr2 c2 hc2 (by rw [hkeep1]; exact h2none)
              rw [hkeep2, hkeep1]
              exact hne2
        · have h1none : getCell (setCell g r c (some (JsNum.int n))) a b = none := by
            rw [getCell_setCell_ne g r c _ a b hab]
            exact hnone
          exact hcomp1.2.2 a ha b hb h1none

/-! ### Solver completeness: a completable grid is solved -/

theorem solveGridAux_complete (fuel : Nat) :
    ∀ g, WF g → emptiesCount g < fuel → (∃ g2, Completion g g2) →
      (solveGridAux fuel g).1 = true := by
  induction fuel with
  | zero => intro g _ h _; omega
  | succ m ih =>
    intro g hWF hcnt hex
    obtain ⟨gs, hgs⟩ := hex
    rcases hfe : firstEmpty g with _ | ⟨r, c⟩
    · rw [solveGridAux, hfe]
    · rw [solveGridAux, hfe]
      obtain ⟨hr, hc, hcell, _⟩ := firstEmpty_some g r c hfe
      obtain ⟨⟨n, hnl, hval⟩, hok⟩ := hgs.2.2 r hr c hc hcell
      have hv : isValidMove g r c (JsNum.int n) = true := by
        apply isValidMove_of_peers g r c _ hr hc
        intro r2 hr2 c2 hc2 hpeer
        rw [jsEqCell_int_false_iff]
        intro habs
        by_cases hne : r2 = r ∧ c2 = c
        · obtain ⟨rfl, rfl⟩ := hne
          rw [hcell] at habs
          exact absurd habs (by simp)
        · have hkeep : getCell gs r2 c2 = getCell g r2 c2 :=
            hgs.2.1 r2 hr2 c2 hc2 (by rw [habs]; simp)
          exact hok r2 hr2 c2 hc2 ⟨hpeer, hne⟩ (by rw [hkeep, habs, hval])
      have hWF1 : WF (setCell g r c (some (JsNum.int n))) := WF_setCell g r c _ hWF
      have hcomp1 : Completion (setCell g r c (some (JsNum.int n))) gs := by
        refine ⟨hgs.1, ?_, ?_⟩
        · intro a ha b hb hne0
          by_cases hab : a = r ∧ b = c
          · obtain ⟨rfl, rfl⟩ := hab
            rw [getCell_setCell_self g a b _ hWF hr hc]
            exact hval
          · rw [getCell_setCell_ne g r c _ a b hab] at hne0 ⊢
            exact hgs.2.1 a ha b hb hne0
        · intro a ha b hb hnone1
          have hab : ¬(a = r ∧ b = c) := by
            rintro ⟨rfl, rfl⟩
            rw [getCell_setCell_self g a b _ hWF hr hc] at hnone1
            exact absurd hnone1 (by simp)
          rw [getCell_setCell_ne g r c _ a b hab] at hnone1
          exact hgs.2.2 a ha b hb hnone1
      have hcnt1 : emptiesCount (setCell g r c (some (JsNum.int n))) < m := by
        have := emptiesCount_setCell_some g r c (JsNum.int n) hWF hr hc hcell
        omega
      have hrek : (solveGridAux m (setCell g r c (some (JsNum.int n)))).1 = true :=
        ih _ hWF1 hcnt1 ⟨gs, hcomp1⟩
      exact tryNums_of_exists (solveGridAux m) (solveGridAux_false m) g r c hcell digits
        ⟨n, hnl, hv, hrek⟩

/-! ### Concrete grids for witnesses (the solved grid used by the
repository's own test suite) -/

/-- Build a grid whose cells all hold integers. -/
def gridOfInts (l : List (List Int)) : Grid :=
  l.map fun row => row.map fun n => some (JsNum.int n)

/-- The canonical solved grid from `src/__tests__/sudoku.test.ts`. -/
def solved0 : Grid := gridOfInts
  [[5, 3, 4, 6, 7, 8, 9, 1, 2],
   [6, 7, 2, 1, 9, 5, 3, 4, 8],
   [1, 9, 8, 3, 4, 2, 5, 6, 7],
   [8, 5, 9, 7, 6, 1, 4, 2, 3],
   [4, 2, 6, 8, 5, 3, 7, 9, 1],
   [7, 1, 3, 9, 2, 4, 8, 5, 6],
   [9, 6, 1, 5, 3, 7, 2, 8, 4],
   [2, 8, 7, 4, 1, 9, 6, 3, 5],
   [3, 4, 5, 2, 8, 6, 1, 7, 9]]

/-- The solved grid with cell (0,0) blanked. -/
def puzzle0 : Grid := setCell solved0 0 0 none

/-! ### Claim C3 -/

/-- C3: `solveGrid` returns false and leaves the grid exactly as given
when no completion consistent with the constraint checker exists, and
returns true leaving the grid fully solved — every originally empty cell
filled with a digit 1..9 that passed the checker (no conflict with any
other cell of its row, column, or box) — whenever such a completion
exists. -/
theorem solveGrid_correct (g : Grid) (hWF : WF g) :
    ((solveGrid g).1 = true → Completion g (solveGrid g).2) ∧
    ((solveGrid g).1 = false → (solveGrid g).2 = g ∧ ¬ ∃ g2, Completion g g2) ∧
    ((∃ g2, Completion g g2) → (solveGrid g).1 = true) := by
  have hcomplete : (∃ g2, Completion g g2) → (solveGrid g).1 = true := fun hex =>
    solveGridAux_complete 82 g hWF (by have := emptiesCount_le g; omega) hex
  refine ⟨fun h => solveGridAux_sound 82 g hWF h,
    fun h => ⟨solveGridAux_false 82 g h, ?_⟩, hcomplete⟩
  intro hex
  have := hcomplete hex
  rw [h] at this
  exact absurd this (by simp)

/-- Witness for C3 at a concrete input: the canonical solved grid with
one cell blanked is well-formed, and the theorem applies to it. -/
theorem solveGrid_correct_witness :
    WF puzzle0 ∧
    (((solveGrid puzzle0).1 = true → Completion puzzle0 (solveGrid puzzle0).2) ∧
     ((solveGrid puzzle0).1 = false →
       (solveGrid puzzle0).2 = puzzle0 ∧ ¬ ∃ g2, Completion puzzle0 g2) ∧
     ((∃ g2, Completion puzzle0 g2) → (solveGrid puzzle0).1 = true)) :=
  ⟨by decide, solveGrid_correct puzzle0 (by decide)⟩

/-! ### Claim C1 -/

/-- C1 counterexample: the claim says the placement check ignores the
cell's own content, so that re-checking a cell's existing value reports
valid; in fact `isValidMove` scans the cell itself, so on the canonical
solved grid, whose cell (0,0) holds 5, `isValidMove(grid,0,0,5)` returns
false, not true. -/
theorem isValidMove_self_counterexample :
    getCell solved0 0 0 = some (JsNum.int 5) ∧
    isValidMove solved0 0 0 (JsNum.int 5) = false := by
  constructor
  · decide
  · decide

/-- C1 amended: for every grid and every cell (row,col) currently
holding an integer value v, `isValidMove(grid,row,col,v)` returns false:
the cell's own content is scanned like any other cell of its row, so a
cell's existing value always conflicts with itself.  (Callers that need
the ignore-own-cell reading, like `updateCell`, first blank the cell on
a copy.) -/
theorem isValidMove_self_false (g : Grid) (r c : Nat) (n : Int)
    (hc : c < 9) (h : getCell g r c = some (JsNum.int n)) :
    isValidMove g r c (JsNum.int n) = false := by
  cases hval : isValidMove g r c (JsNum.int n) with
  | false => rfl
  | true =>
    have := ((isValidMove_iff g r c (JsNum.int n)).1 hval).1 c hc
    rw [h] at this
    simp [jsEqCell, jsEq] at this

/-- Witness for the amended C1 at a concrete input: cell (0,1) of the
canonical solved grid holds 3, and re-checking 3 there reports invalid. -/
theorem isValidMove_self_false_witness :
    (1 : Nat) < 9 ∧ getCell solved0 0 1 = some (JsNum.int 3) ∧
    isValidMove solved0 0 1 (JsNum.int 3) = false :=
  ⟨by decide, by decide, isValidMove_self_false solved0 0 1 3 (by decide) (by decide)⟩

/-! ### Invalid-cell scan: `getInvalidCells` from `useSudokuGame.ts` -/

/-- The string pushed into the invalid list: `` `${row}-${col}` ``. -/
def cellKey (r c : Nat) : String :=
  toString r ++ "-" ++ toString c

/-- A cell value matches a `Set` entry under SameValueZero (`null`
never matches, since only non-null values are added to `seen`). -/
def svzCell : Cell → JsNum → Bool
  | none, _ => false
  | some v, w => svzEq v w

/-- The inner walk of one unit of `getInvalidCells`: iterate the unit's
cells in source order with the `seen` set; at a cell whose non-null value
is already in `seen`, push the key of every cell of the unit whose value
is `===` it; otherwise add the value to `seen`.  `cells` is the full unit
in the order the source's inner marking loop iterates it. -/
def scanUnitAux (board : Grid) (cells : List (Nat × Nat)) :
    List JsNum → List (Nat × Nat) → List String
  | _, [] => []
  | seen, rc :: rest =>
    match getCell board rc.1 rc.2 with
    | none => scanUnitAux board cells seen rest
    | some v =>
      if seen.any fun u => svzEq u v then
        ((cells.filter fun q => jsEqCell (getCell board q.1 q.2) v).map
          fun q => cellKey q.1 q.2) ++ scanUnitAux board cells seen rest
      else scanUnitAux board cells (seen ++ [v]) rest

/-- One full unit scan (row, column, or box loop body) with an initially
empty `seen` set. -/
def scanUnit (board : Grid) (cells : List (Nat × Nat)) : List String :=
  scanUnitAux board cells [] cells

/-- Row `r` as iterated by `for (col = 0; col < 9; col++)`. -/
def rowCells (r : Nat) : List (Nat × Nat) :=
  (List.range 9).map fun c => (r, c)

/-- Column `c` as iterated by `for (row = 0; row < 9; row++)`. -/
def colCells (c : Nat) : List (Nat × Nat) :=
  (List.range 9).map fun r => (r, c)

/-- Box `(boxRow, boxCol)` as iterated by the nested
`for (row = boxRow*3 ...) for (col = boxCol*3 ...)` loops. -/
def boxCells (bR bC : Nat) : List (Nat × Nat) :=
  (List.range 3).flatMap fun i => (List.range 3).map fun j => (bR * 3 + i, bC * 3 + j)

/-- `Array.from(new Set(invalid))`: de-duplication keeping the first
occurrence of each string. -/
def dedupAux : List String → List String → List String
  | _, [] => []
  | seen, x :: xs =>
    if x ∈ seen then dedupAux seen xs else x :: dedupAux (x :: seen) xs

/-- JavaScript `Array.from(new Set(l))`. -/
def jsSetDedup (l : List String) : List String := dedupAux [] l

/-- `getInvalidCells()` from `useSudokuGame.ts`: scan all 9 rows, then
all 9 columns, then all 9 boxes, pushing into one list, and de-duplicate
at the end. -/
def getInvalidCells (board : Grid) : List String :=
  jsSetDedup
    (((List.range 9).flatMap fun r => scanUnit board (rowCells r)) ++
     ((List.range 9).flatMap fun c => scanUnit board (colCells c)) ++
     ((List.range 3).flatMap fun bR => (List.range 3).flatMap fun bC =>
        scanUnit board (boxCells bR bC)))

/-! ### Value-equality helper lemmas -/

theorem jsEqCell_nan_false (cell : Cell) : jsEqCell cell JsNum.nan = false := by
  cases cell with
  | none => rfl
  | some v => cases v <;> rfl

theorem jsEqCell_int_true_iff (cell : Cell) (n : Int) :
    jsEqCell cell (JsNum.int n) = true ↔ cell = some (JsNum.int n) := by
  cases cell with
  | none => simp [jsEqCell]
  | some v => cases v <;> simp [jsEqCell, jsEq]

theorem svzEq_int_iff (u : JsNum) (n : Int) :
    svzEq u (JsNum.int n) = true ↔ u = JsNum.int n := by
  cases u <;> simp [svzEq]

theorem svzCell_int_iff (cell : Cell) (n : Int) :
    svzCell cell (JsNum.int n) = true ↔ cell = some (JsNum.int n) := by
  cases cell with
  | none => simp [svzCell]
  | some v => cases v <;> simp [svzCell, svzEq]

theorem svzEq_trans (u v w : JsNum) (h1 : svzEq u v = true)
    (h2 : svzEq v w = true) : svzEq u w = true := by
  cases u <;> cases v <;> cases w <;> simp [svzEq] at *
  omega

/-! ### De-duplication lemmas -/

theorem dedupAux_mem (x : String) :
    ∀ (l seen : List String), x ∈ dedupAux seen l ↔ x ∈ l ∧ x ∉ seen := by
  intro l
  induction l with
  | nil => intro seen; simp [dedupAux]
  | cons a xs ih =>
    intro seen
    by_cases ha : a ∈ seen
    · rw [dedupAux, if_pos ha, ih]
      constructor
      · rintro ⟨h1, h2⟩; exact ⟨List.mem_cons_of_mem _ h1, h2⟩
      · rintro ⟨h1, h2⟩
        rcases List.mem_cons.1 h1 with rfl | h1
        · exact absurd ha h2
        · exact ⟨h1, h2⟩
    · rw [dedupAux, if_neg ha]
      constructor
      · intro h
        rcases List.mem_cons.1 h with rfl | h
        · exact ⟨List.mem_cons_self _ _, ha⟩
        · obtain ⟨h1, h2⟩ := (ih (a :: seen)).1 h
          refine ⟨List.mem_cons_of_mem _ h1, fun hx => h2 (List.mem_cons_of_mem _ hx)⟩
      · rintro ⟨h1, h2⟩
        rcases List.mem_cons.1 h1 with rfl | h1
        · exact List.mem_cons_self _ _
        · rcases eq_or_ne x a with rfl | hxa
          · exact List.mem_cons_self _ _
          · refine List.mem_cons_of_mem _ ((ih (a :: seen)).2 ⟨h1, ?_⟩)
            intro hx
            rcases List.mem_cons.1 hx with h | h
            · exact hxa h
            · exact h2 h

theorem dedupAux_nodup :
    ∀ (l seen : List String), (dedupAux seen l).Nodup := by
  intro l
  induction l with
  | nil => intro seen; simp [dedupAux]
  | cons a xs ih =>
    intro seen
    by_cases ha : a ∈ seen
    · rw [dedupAux, if_pos ha]; exact ih seen
    · rw [dedupAux, if_neg ha]
      rw [List.nodup_cons]
      refine ⟨fun hmem => ?_, ih (a :: seen)⟩
      exact ((dedupAux_mem a xs (a :: seen)).1 hmem).2 (List.mem_cons_self _ _)

theorem jsSetDedup_mem (x : String) (l : List String) :
    x ∈ jsSetDedup l ↔ x ∈ l := by
  rw [jsSetDedup, dedupAux_mem]
  simp

theorem jsSetDedup_nodup (l : List String) : (jsSetDedup l).Nodup :=
  dedupAux_nodup l []

/-! ### Characterisation of one unit scan -/

theorem mem_pushKeys (board : Grid) (cells : List (Nat × Nat)) (n : Int) (x : String) :
    (x ∈ (cells.filter fun q => jsEqCell (getCell board q.1 q.2) (JsNum.int n)).map
        fun q => cellKey q.1 q.2) ↔
      ∃ q ∈ cells, getCell board q.1 q.2 = some (JsNum.int n) ∧ x = cellKey q.1 q.2 := by
  simp only [List.mem_map, List.mem_filter]
  constructor
  · rintro ⟨q, ⟨hq, hval⟩, rfl⟩
    exact ⟨q, hq, (jsEqCell_int_true_iff _ _).1 hval, rfl⟩
  · rintro ⟨q, hq, hval, rfl⟩
    exact ⟨q, ⟨hq, (jsEqCell_int_true_iff _ _).2 hval⟩, rfl⟩

/-- The value of the `seen` set at any point of the walk: a value class
is `seen` exactly when some already-visited cell holds it.  With that
invariant, a key is emitted by the rest of the walk exactly when some
digit occurs at a cell `e` of the remaining part and at a second,
distinct cell `p` of the whole unit, and the key belongs to the unit's
cells `===` that digit. -/
theorem scanUnitAux_mem (board : Grid) (cells : List (Nat × Nat)) (x : String) :
    ∀ (rest pre : List (Nat × Nat)) (seen : List JsNum),
      (pre ++ rest).Nodup →
      (∀ w : JsNum, (seen.any fun u => svzEq u w) =
        (pre.any fun q => svzCell (getCell board q.1 q.2) w)) →
      (x ∈ scanUnitAux board cells seen rest ↔
        ∃ n : Int, ∃ e ∈ rest, getCell board e.1 e.2 = some (JsNum.int n) ∧
          (∃ p ∈ pre ++ rest, p ≠ e ∧ getCell board p.1 p.2 = some (JsNum.int n)) ∧
          x ∈ (cells.filter fun q =>
            jsEqCell (getCell board q.1 q.2) (JsNum.int n)).map fun q => cellKey q.1 q.2) := by
  intro rest
  induction rest with
  | nil => intro pre seen _ _; simp [scanUnitAux]
  | cons rc rest2 ih =>
    intro pre seen hnd hseen
    have hassoc : (pre ++ [rc]) ++ rest2 = pre ++ rc :: rest2 := by simp
    rcases hval : getCell board rc.1 rc.2 with _ | v
    · -- the cell is null: the walk skips it
      simp only [scanUnitAux, hval]
      have hseen2 : ∀ w : JsNum, (seen.any fun u => svzEq u w) =
          ((pre ++ [rc]).any fun q => svzCell (getCell board q.1 q.2) w) := by
        intro w
        rw [List.any_append, hseen w]
        simp [svzCell, hval]
      rw [ih (pre ++ [rc]) seen (by rw [hassoc]; exact hnd) hseen2]
      constructor
      · rintro ⟨n, e, he, hve, ⟨p, hp, hpe, hvp⟩, hx⟩
        rw [hassoc] at hp
        exact ⟨n, e, List.mem_cons_of_mem _ he, hve, ⟨p, hp, hpe, hvp⟩, hx⟩
      · rintro ⟨n, e, he, hve, ⟨p, hp, hpe, hvp⟩, hx⟩
        rcases List.mem_cons.1 he with rfl | he2
        · rw [hval] at hve; cases hve
        · refine ⟨n, e, he2, hve, ⟨p, ?_, hpe, hvp⟩, hx⟩
          rw [hassoc]; exact hp
    · by_cases hsv : (seen.any fun u => svzEq u v) = true
      · -- repeated value: push all unit cells `===` it, keep walking
        simp only [scanUnitAux, hval]
        rw [if_pos hsv, List.mem_append]
        have hseen2 : ∀ w : JsNum, (seen.any fun u => svzEq u w) =
            ((pre ++ [rc]).any fun q => svzCell (getCell board q.1 q.2) w) := by
          intro w
          rw [List.any_append]
          cases hvw : svzEq v w with
          | true =>
            obtain ⟨u, hu, huv⟩ := List.any_eq_true.1 hsv
            have h1 : (seen.any fun u => svzEq u w) = true :=
              List.any_eq_true.2 ⟨u, hu, svzEq_trans u v w huv hvw⟩
            rw [h1]
            simp [svzCell, hval, hvw]
          | false =>
            rw [hseen w]
            simp [svzCell, hval, hvw]
        have hpre0 : ∃ p0 ∈ pre, svzCell (getCell board p0.1 p0.2) v = true := by
          have h0 := hseen v
          rw [hsv] at h0
          exact List.any_eq_true.1 h0.symm
        constructor
        · intro hor
          rcases hor with hpush | hrec
          · rcases v with _ | n
            · exfalso
              obtain ⟨q, hq, _⟩ := List.mem_map.1 hpush
              have := (List.mem_filter.1 hq).2
              rw [jsEqCell_nan_false] at this
              cases this
            · obtain ⟨p0, hp0, hsvz⟩ := hpre0
              have hvp0 : getCell board p0.1 p0.2 = some (JsNum.int n) :=
                (svzCell_int_iff _ _).1 hsvz
              have hpne : p0 ≠ rc := by
                intro h
                have hdisj := (List.nodup_append.1 hnd).2.2
                exact hdisj (h ▸ hp0) (List.mem_cons_self _ _)
              exact ⟨n, rc, List.mem_cons_self _ _, hval,
                ⟨p0, List.mem_append.2 (Or.inl hp0), hpne, hvp0⟩, hpush⟩
          · rw [ih (pre ++ [rc]) seen (by rw [hassoc]; exact hnd) hseen2] at hrec
            obtain ⟨n, e, he, hve, ⟨p, hp, hpe, hvp⟩, hx⟩ := hrec
            rw [hassoc] at hp
            exact ⟨n, e, List.mem_cons_of_mem _ he, hve, ⟨p, hp, hpe, hvp⟩, hx⟩
        · rintro ⟨n, e, he, hve, ⟨p, hp, hpe, hvp⟩, hx⟩
          rcases List.mem_cons.1 he with rfl | he2
          · rw [hval] at hve
            obtain rfl : v = JsNum.int n := Option.some_injective _ hve
            exact Or.inl hx
          · right
            rw [ih (pre ++ [rc]) seen (by rw [hassoc]; exact hnd) hseen2]
            refine ⟨n, e, he2, hve, ⟨p, ?_, hpe, hvp⟩, hx⟩
            rw [hassoc]; exact hp
      · -- first occurrence of the value: add it to `seen`
        simp only [scanUnitAux, hval]
        rw [if_neg hsv]
        have hseen2 : ∀ w : JsNum, ((seen ++ [v]).any fun u => svzEq u w) =
            ((pre ++ [rc]).any fun q => svzCell (getCell board q.1 q.2) w) := by
          intro w
          rw [List.any_append, List.any_append, hseen w]
          simp [svzCell, hval]
        rw [ih (pre ++ [rc]) (seen ++ [v]) (by rw [hassoc]; exact hnd) hseen2]
        constructor
        · rintro ⟨n, e, he, hve, ⟨p, hp, hpe, hvp⟩, hx⟩
          rw [hassoc] at hp
          exact ⟨n, e, List.mem_cons_of_mem _ he, hve, ⟨p, hp, hpe, hvp⟩, hx⟩
        · rintro ⟨n, e, he, hve, ⟨p, hp, hpe, hvp⟩, hx⟩
          rcases List.mem_cons.1 he with rfl | he2
          · rw [hval] at hve
            obtain rfl : v = JsNum.int n := Option.some_injective _ hve
            have hp2 : p ∈ rest2 := by
              rcases List.mem_append.1 hp with hppre | hprc
              · exfalso
                have hany : (pre.any fun q =>
                    svzCell (getCell board q.1 q.2) (JsNum.int n)) = true :=
                  List.any_eq_true.2 ⟨p, hppre, (svzCell_int_iff _ _).2 hvp⟩
                rw [← hseen (JsNum.int n)] at hany
                exact hsv hany
              · rcases List.mem_cons.1 hprc with rfl | hpr2
                · exact absurd rfl hpe
                · exact hpr2
            refine ⟨n, p, hp2, hvp, ⟨e, ?_, fun h => hpe h.symm, hval⟩, hx⟩
            simp
          · refine ⟨n, e, he2, hve, ⟨p, ?_, hpe, hvp⟩, hx⟩
            rw [hassoc]; exact hp

/-- Characterisation of a full unit scan: a key is emitted exactly for
the unit cells holding a digit that occurs at a second cell of the same
unit. -/
theorem scanUnit_mem (board : Grid) (cells : List (Nat × Nat)) (x : String)
    (hnd : cells.Nodup) :
    x ∈ scanUnit board cells ↔ ∃ q ∈ cells, ∃ n : Int,
      getCell board q.1 q.2 = some (JsNum.int n) ∧ x = cellKey q.1 q.2 ∧
      ∃ p ∈ cells, p ≠ q ∧ getCell board p.1 p.2 = some (JsNum.int n) := by
  rw [scanUnit, scanUnitAux_mem board cells x cells [] []
    (by simpa using hnd) (fun w => rfl)]
  constructor
  · rintro ⟨n, e, he, hve, ⟨p, hp, hpe, hvp⟩, hx⟩
    simp only [List.nil_append] at hp
    obtain ⟨q, hq, hvq, hkey⟩ := (mem_pushKeys board cells n x).1 hx
    rcases eq_or_ne q e with rfl | hqe
    · exact ⟨q, hq, n, hvq, hkey, p, hp, hpe, hvp⟩
    · exact ⟨q, hq, n, hvq, hkey, e, he, Ne.symm hqe, hve⟩
  · rintro ⟨q, hq, n, hvq, hkey, p, hp, hpq, hvp⟩
    refine ⟨n, q, hq, hvq, ⟨p, by simpa using hp, hpq, hvp⟩, ?_⟩
    exact (mem_pushKeys board cells n x).2 ⟨q, hq, hvq, hkey⟩

/-! ### The three unit families -/

theorem rowCells_nodup (r : Nat) : (rowCells r).Nodup :=
  List.Nodup.map (fun a b h => by simpa using h) (List.nodup_range 9)

theorem colCells_nodup (c : Nat) : (colCells c).Nodup :=
  List.Nodup.map (fun a b h => by simpa using h) (List.nodup_range 9)

theorem boxCells_eq_map (bR bC : Nat) :
    boxCells bR bC = (List.range 9).map fun t => (bR * 3 + t / 3, bC * 3 + t % 3) := by
  rfl

theorem boxCells_nodup (bR bC : Nat) : (boxCells bR bC).Nodup := by
  rw [boxCells_eq_map]
  refine List.Nodup.map ?_ (List.nodup_range 9)
  intro a b h
  simp only [Prod.mk.injEq] at h
  omega

theorem mem_rowCells (r a b : Nat) : (a, b) ∈ rowCells r ↔ a = r ∧ b < 9 := by
  simp only [rowCells, List.mem_map, List.mem_range, Prod.mk.injEq]
  constructor
  · rintro ⟨c, hc, rfl, rfl⟩; exact ⟨rfl, hc⟩
  · rintro ⟨rfl, hb⟩; exact ⟨b, hb, rfl, rfl⟩

theorem mem_colCells (c a b : Nat) : (a, b) ∈ colCells c ↔ a < 9 ∧ b = c := by
  simp only [colCells, List.mem_map, List.mem_range, Prod.mk.injEq]
  constructor
  · rintro ⟨r, hr, rfl, rfl⟩; exact ⟨hr, rfl⟩
  · rintro ⟨ha, rfl⟩; exact ⟨a, ha, rfl, rfl⟩

theorem mem_boxCells (bR bC a b : Nat) :
    (a, b) ∈ boxCells bR bC ↔ a / 3 = bR ∧ b / 3 = bC := by
  simp only [boxCells, List.mem_flatMap, List.mem_map, List.mem_range, Prod.mk.injEq]
  constructor
  · rintro ⟨i, hi, j, hj, h1, h2⟩
    omega
  · rintro ⟨h1, h2⟩
    exact ⟨a % 3, by omega, b % 3, by omega, by omega, by omega⟩

/-! ### Claim C6 -/

/-- The coordinate `(r, c)` holds a digit that occurs more than once in
its row, its column, or its 3×3 box (every holder of the duplicated
digit qualifies, not just later occurrences). -/
def InvalidCellPred (board : Grid) (r c : Nat) : Prop :=
  ∃ n : Int, getCell board r c = some (JsNum.int n) ∧
    ((∃ c2, c2 < 9 ∧ c2 ≠ c ∧ getCell board r c2 = some (JsNum.int n)) ∨
     (∃ r2, r2 < 9 ∧ r2 ≠ r ∧ getCell board r2 c = some (JsNum.int n)) ∨
     (∃ r2 c2, r2 < 9 ∧ c2 < 9 ∧ r2 / 3 = r / 3 ∧ c2 / 3 = c / 3 ∧
       ¬(r2 = r ∧ c2 = c) ∧ getCell board r2 c2 = some (JsNum.int n)))

theorem mem_rowPart (board : Grid) (x : String) :
    (x ∈ (List.range 9).flatMap fun r => scanUnit board (rowCells r)) ↔
      ∃ r, r < 9 ∧ ∃ c, c < 9 ∧ x = cellKey r c ∧
        ∃ n : Int, getCell board r c = some (JsNum.int n) ∧
          ∃ c2, c2 < 9 ∧ c2 ≠ c ∧ getCell board r c2 = some (JsNum.int n) := by
  rw [List.mem_flatMap]
  constructor
  · rintro ⟨r, hr, hx⟩
    rw [List.mem_range] at hr
    rw [scanUnit_mem board _ x (rowCells_nodup r)] at hx
    obtain ⟨⟨qa, qb⟩, hq, n, hvq, hkey, ⟨pa, pb⟩, hp, hpq, hvp⟩ := hx
    obtain ⟨hq1, hqb⟩ := (mem_rowCells r qa qb).1 hq
    obtain ⟨hp1, hpb⟩ := (mem_rowCells r pa pb).1 hp
    refine ⟨r, hr, qb, hqb, ?_, n, ?_, pb, hpb, ?_, ?_⟩
    · rw [← hq1]; exact hkey
    · rw [← hq1]; exact hvq
    · intro h
      apply hpq
      rw [Prod.mk.injEq]
      exact ⟨by rw [hp1, hq1], h⟩
    · rw [← hp1]; exact hvp
  · rintro ⟨r, hr, c, hc, hkey, n, hv, c2, hc2, hne, hv2⟩
    refine ⟨r, List.mem_range.2 hr, ?_⟩
    rw [scanUnit_mem board _ x (rowCells_nodup r)]
    refine ⟨(r, c), (mem_rowCells r r c).2 ⟨rfl, hc⟩, n, hv, hkey,
      (r, c2), (mem_rowCells r r c2).2 ⟨rfl, hc2⟩, ?_, hv2⟩
    intro h
    exact hne (congrArg Prod.snd h)

theorem mem_colPart (board : Grid) (x : String) :
    (x ∈ (List.range 9).flatMap fun c => scanUnit board (colCells c)) ↔
      ∃ r, r < 9 ∧ ∃ c, c < 9 ∧ x = cellKey r c ∧
        ∃ n : Int, getCell board r c = some (JsNum.int n) ∧
          ∃ r2, r2 < 9 ∧ r2 ≠ r ∧ getCell board r2 c = some (JsNum.int n) := by
  rw [List.mem_flatMap]
  constructor
  · rintro ⟨c, hc, hx⟩
    rw [List.mem_range] at hc
    rw [scanUnit_mem board _ x (colCells_nodup c)] at hx
    obtain ⟨⟨qa, qb⟩, hq, n, hvq, hkey, ⟨pa, pb⟩, hp, hpq, hvp⟩ := hx
    obtain ⟨hqa, hq2⟩ := (mem_colCells c qa qb).1 hq
    obtain ⟨hpa, hp2⟩ := (mem_colCells c pa pb).1 hp
    refine ⟨qa, hqa, c, hc, ?_, n, ?_, pa, hpa, ?_, ?_⟩
    · rw [← hq2]; exact hkey
    · rw [← hq2]; exact hvq
    · intro h
      apply hpq
      rw [Prod.mk.injEq]
      exact ⟨h, by rw [hp2, hq2]⟩
    · rw [← hp2]; exact hvp
  · rintro ⟨r, hr, c, hc, hkey, n, hv, r2, hr2, hne, hv2⟩
    refine ⟨c, List.mem_range.2 hc, ?_⟩
    rw [scanUnit_mem board _ x (colCells_nodup c)]
    refine ⟨(r, c), (mem_colCells c r c).2 ⟨hr, rfl⟩, n, hv, hkey,
      (r2, c), (mem_colCells c r2 c).2 ⟨hr2, rfl⟩, ?_, hv2⟩
    intro h
    exact hne (congrArg Prod.fst h)

theorem mem_boxPart (board : Grid) (x : String) :
    (x ∈ (List.range 3).flatMap fun bR => (List.range 3).flatMap fun bC =>
        scanUnit board (boxCells bR bC)) ↔
      ∃ r, r < 9 ∧ ∃ c, c < 9 ∧ x = cellKey r c ∧
        ∃ n : Int, getCell board r c = some (JsNum.int n) ∧
          ∃ r2 c2, r2 < 9 ∧ c2 < 9 ∧ r2 / 3 = r / 3 ∧ c2 / 3 = c / 3 ∧
            ¬(r2 = r ∧ c2 = c) ∧ getCell board r2 c2 = some (JsNum.int n) := by
  simp only [List.mem_flatMap, List.mem_range]
  constructor
  · rintro ⟨bR, hbR, bC, hbC, hx⟩
    rw [scanUnit_mem board _ x (boxCells_nodup bR bC)] at hx
    obtain ⟨⟨qa, qb⟩, hq, n, hvq, hkey, ⟨pa, pb⟩, hp, hpq, hvp⟩ := hx
    obtain ⟨hq1, hq2⟩ := (mem_boxCells bR bC qa qb).1 hq
    obtain ⟨hp1, hp2⟩ := (mem_boxCells bR bC pa pb).1 hp
    refine ⟨qa, by omega, qb, by omega, hkey, n, hvq,
      pa, pb, by omega, by omega, by omega, by omega, ?_, hvp⟩
    rintro ⟨rfl, rfl⟩
    exact hpq rfl
  · rintro ⟨r, hr, c, hc, hkey, n, hv, r2, c2, hr2, hc2, hb1, hb2, hne, hv2⟩
    refine ⟨r / 3, by omega, c / 3, by omega, ?_⟩
    rw [scanUnit_mem board _ x (boxCells_nodup (r / 3) (c / 3))]
    refine ⟨(r, c), (mem_boxCells _ _ r c).2 ⟨rfl, rfl⟩, n, hv, hkey,
      (r2, c2), (mem_boxCells _ _ r2 c2).2 ⟨hb1, hb2⟩, ?_, hv2⟩
    intro h
    exact hne ⟨congrArg Prod.fst h, congrArg Prod.snd h⟩

/-- C6: `getInvalidCells` returns, without duplicates, exactly the keys
of the cells flagged by some unit: the cells holding a digit that occurs
more than once in their row, their column, or their 3×3 box — every
holder of the duplicated digit, across all three unit kinds, each
coordinate listed once.  In particular the result is empty whenever no
cell is involved in a duplicate, as on a correctly solved grid. -/
theorem getInvalidCells_spec (board : Grid) :
    (getInvalidCells board).Nodup ∧
    (∀ x : String, x ∈ getInvalidCells board ↔
      ∃ r, r < 9 ∧ ∃ c, c < 9 ∧ x = cellKey r c ∧ InvalidCellPred board r c) ∧
    ((∀ r < 9, ∀ c < 9, ¬ InvalidCellPred board r c) → getInvalidCells board = []) := by
  have hmem : ∀ x : String, x ∈ getInvalidCells board ↔
      ∃ r, r < 9 ∧ ∃ c, c < 9 ∧ x = cellKey r c ∧ InvalidCellPred board r c := by
    intro x
    rw [getInvalidCells, jsSetDedup_mem, List.mem_append, List.mem_append,
      mem_rowPart, mem_colPart, mem_boxPart]
    constructor
    · rintro ((⟨r, hr, c, hc, hkey, n, hv, hrest⟩ |
               ⟨r, hr, c, hc, hkey, n, hv, hrest⟩) |
               ⟨r, hr, c, hc, hkey, n, hv, r2, c2, hrest⟩)
      · exact ⟨r, hr, c, hc, hkey, n, hv, Or.inl hrest⟩
      · exact ⟨r, hr, c, hc, hkey, n, hv, Or.inr (Or.inl hrest)⟩
      · exact ⟨r, hr, c, hc, hkey, n, hv, Or.inr (Or.inr ⟨r2, c2, hrest⟩)⟩
    · rintro ⟨r, hr, c, hc, hkey, n, hv, hrest | hrest | ⟨r2, c2, hrest⟩⟩
      · exact Or.inl (Or.inl ⟨r, hr, c, hc, hkey, n, hv, hrest⟩)
      · exact Or.inl (Or.inr ⟨r, hr, c, hc, hkey, n, hv, hrest⟩)
      · exact Or.inr ⟨r, hr, c, hc, hkey, n, hv, r2, c2, hrest⟩
  refine ⟨jsSetDedup_nodup _, hmem, ?_⟩
  intro hnone
  rw [List.eq_nil_iff_forall_not_mem]
  intro x hx
  obtain ⟨r, hr, c, hc, _, hpred⟩ := (hmem x).1 hx
  exact hnone r hr c hc hpred

/-! ### Configuration from `src/types/sudoku.ts` -/

/-- `ScoringConfig` (fields in source order: correctCell, baseHintPenalty,
hintPenaltyIncrement, errorPenalty, timeBonus, maxHints). -/
structure ScoringConfig where
  correctCell : Int
  baseHintPenalty : Int
  hintPenaltyIncrement : Int
  errorPenalty : Int
  timeBonus : Int
  maxHints : Nat

/-- `SCORING_CONFIG`. -/
def SCORING_CONFIG : ScoringConfig := ⟨5, 3, 1, 1, 500, 10⟩

/-- `Difficulty`. -/
inductive Difficulty where
  | beginner
  | intermediate
  | hard
  | expert
deriving DecidableEq

/-- `DifficultyConfig` (fields: minVisible, maxVisible; the `name` and
`label` strings play no role in the engine and are omitted). -/
structure DifficultyConfig where
  minVisible : Nat
  maxVisible : Nat

/-- `DIFFICULTY_CONFIGS`. -/
def DIFFICULTY_CONFIGS : Difficulty → DifficultyConfig
  | Difficulty.beginner => ⟨36, 40⟩
  | Difficulty.intermediate => ⟨32, 36⟩
  | Difficulty.hard => ⟨28, 32⟩
  | Difficulty.expert => ⟨24, 28⟩

/-- `Hint` from `src/types/sudoku.ts`. -/
structure Hint where
  row : Nat
  col : Nat
  value : Int
deriving DecidableEq

/-- The part of `GameState` the verified operations read or write
(timing flags kept because `updateCell` can complete the game; the
loading/error/pause fields never interact with the engine). -/
structure GameState where
  puzzle : Grid
  board : Grid
  score : Int
  hintsUsed : Nat
  startTime : Option Int
  endTime : Option Int
  isComplete : Bool
  isCorrect : Bool
deriving DecidableEq

/-! ### The JavaScript `parseInt` builtin, as called by `updateCell` -/

/-- The numeric value of a character as a digit in the given radix. -/
def digitValue (radix : Nat) (ch : Char) : Option Nat :=
  let v : Nat :=
    if '0' ≤ ch ∧ ch ≤ '9' then ch.toNat - '0'.toNat
    else if 'a' ≤ ch ∧ ch ≤ 'z' then ch.toNat - 'a'.toNat + 10
    else if 'A' ≤ ch ∧ ch ≤ 'Z' then ch.toNat - 'A'.toNat + 10
    else 99
  if v < radix then some v else none

/-- Longest digit prefix of the character list in the given radix. -/
def takeDigits (radix : Nat) : List Char → List Nat
  | [] => []
  | ch :: rest =>
    match digitValue radix ch with
    | some v => v :: takeDigits radix rest
    | none => []

/-- Model of the JavaScript builtin `parseInt(value)` with no explicit
radix, as `updateCell` calls it: skip leading whitespace, read an
optional sign, detect a `0x`/`0X` prefix (hexadecimal input), read the
longest digit prefix in the resulting radix ignoring any trailing
characters, and produce `NaN` when that prefix is empty. -/
def parseIntJs (s : String) : JsNum :=
  let cs0 := s.toList.dropWhile fun ch =>
    ch == ' ' || ch == '\t' || ch == '\n' || ch == '\r'
  let signed : Int × List Char :=
    match cs0 with
    | '-' :: t => (-1, t)
    | '+' :: t => (1, t)
    | _ => (1, cs0)
  let based : Nat × List Char :=
    match signed.2 with
    | '0' :: 'x' :: t => (16, t)
    | '0' :: 'X' :: t => (16, t)
    | _ => (10, signed.2)
  let ds := takeDigits based.1 based.2
  if ds.isEmpty then JsNum.nan
  else JsNum.int (signed.1 * ((ds.foldl (fun a d => a * based.1 + d) 0 : Nat) : Int))

/-! ### Board-level computed properties of `useSudokuGame.ts` -/

/-- The `isComplete` computed property: no board cell is `=== null`. -/
def boardComplete (b : Grid) : Bool :=
  (List.range 9).all fun r => (List.range 9).all fun c =>
    decide (getCell b r c ≠ none)

/-- The `isCorrect` computed property: complete and the invalid-cell
scan comes back empty. -/
def boardCorrect (b : Grid) : Bool :=
  boardComplete b && decide (getInvalidCells b = [])

/-- `isOriginalCell(row, col)`: the puzzle holds a value there. -/
def isOriginalCell (s : GameState) (row col : Nat) : Bool :=
  (getCell s.puzzle row col).isSome

/-- The `elapsedTime` computed property (`!startTime` and
`endTime || Date.now()` follow JavaScript truthiness, where 0 is falsy;
`Math.floor` on the division is `Int.fdiv`). -/
def elapsedTime (now : Int) (s : GameState) : Int :=
  match s.startTime with
  | none => 0
  | some st =>
    if st = 0 then 0
    else
      let e : Int :=
        match s.endTime with
        | none => now
        | some et => if et = 0 then now else et
      (e - st).fdiv 1000

/-- `completeGame()` without its leaderboard I/O (an external HTTP
collaborator): stamp the end time, mark complete/correct, add the time
bonus. -/
def completeGame (now : Int) (s : GameState) : GameState :=
  let s1 : GameState :=
    { s with endTime := some now, isComplete := true, isCorrect := true }
  { s1 with score := s1.score + (SCORING_CONFIG.timeBonus - elapsedTime now s1) }

/-- `updateCell(row, col, value)` from `useSudokuGame.ts` (persistence
via `saveGameState` is external and stateless for the game data). -/
def updateCell (now : Int) (s : GameState) (row col : Nat) (value : String) :
    GameState :=
  if isOriginalCell s row col then s
  else
    let numValue : Cell := if value = "" then none else some (parseIntJs value)
    if (match numValue with
        | none => false
        | some v => jsLt v 1 || jsGt v 9) then s
    else
      let oldValue := getCell s.board row col
      let wasOldValid :=
        match oldValue with
        | none => false
        | some ov => isValidMove (setCell s.board row col none) row col ov
      let isNowValid :=
        match numValue with
        | none => true
        | some nv => isValidMove s.board row col nv
      let board1 := setCell s.board row col numValue
      let score1 :=
        if oldValue.isSome && wasOldValid && !(jsEqVal numValue oldValue) then
          s.score - SCORING_CONFIG.correctCell
        else s.score
      let score2 :=
        match numValue with
        | none => score1
        | some _ =>
          if isNowValid then score1 + SCORING_CONFIG.correctCell
          else score1 - SCORING_CONFIG.errorPenalty
      let s1 : GameState := { s with board := board1, score := score2 }
      if boardComplete s1.board && boardCorrect s1.board then completeGame now s1
      else s1

/-! ### `getHint()` from `useSudokuGame.ts` -/

/-- The `for num = 1..9` loop at one empty cell of `getHint`: the digit
is checked on `boardCopy`, written into `boardCopy`, and the solver runs
on a further copy; a failed branch leaves the digit in `boardCopy` (the
source never resets it), which is threaded on to the next iteration. -/
def hintTryNums (boardCopy : Grid) (row col : Nat) : List Int → Option Int
  | [] => none
  | n :: rest =>
    if isValidMove boardCopy row col (JsNum.int n) then
      if (solveGrid (setCell boardCopy row col (some (JsNum.int n)))).1 then some n
      else hintTryNums (setCell boardCopy row col (some (JsNum.int n))) row col rest
    else hintTryNums boardCopy row col rest

/-- The row-major cell scan of `getHint` (flat index `k`, fuel `81 - k`):
at each empty cell a fresh copy of the board is tried; when no digit
works there the scan moves on to the next cell. -/
def hintScan (board : Grid) : Nat → Nat → Option Hint
  | 0, _ => none
  | fuel + 1, k =>
    if getCell board (k / 9) (k % 9) = none then
      match hintTryNums board (k / 9) (k % 9) digits with
      | some n => some ⟨k / 9, k % 9, n⟩
      | none => hintScan board fuel (k + 1)
    else hintScan board fuel (k + 1)

/-- `getHint()`: `null` when the hint cap is reached; otherwise scan for
a hint, and on success deduct the penalty (computed from the hints-used
count before it is incremented) and increment the count. -/
def getHint (s : GameState) : Option Hint × GameState :=
  if SCORING_CONFIG.maxHints ≤ s.hintsUsed then (none, s)
  else
    match hintScan s.board 81 0 with
    | some h =>
      let penalty := SCORING_CONFIG.baseHintPenalty +
        (s.hintsUsed : Int) * SCORING_CONFIG.hintPenaltyIncrement
      (some h, { s with score := s.score - penalty, hintsUsed := s.hintsUsed + 1 })
    | none => (none, s)

/-! ### Characterisation of the hint digit loop -/

/-- The digit `n` works at the empty cell `(r, c)` of `b`: it passes the
constraint checker and its tentative placement on a working copy leads
to a grid the solver can complete. -/
def hintP (b : Grid) (r c : Nat) (n : Int) : Prop :=
  isValidMove b r c (JsNum.int n) = true ∧
  (solveGrid (setCell b r c (some (JsNum.int n)))).1 = true

instance (b : Grid) (r c : Nat) (n : Int) : Decidable (hintP b r c n) :=
  decidable_of_iff (isValidMove b r c (JsNum.int n) = true ∧
    (solveGrid (setCell b r c (some (JsNum.int n)))).1 = true) Iff.rfl

/-- Two grids whose scanned cells compare equally against `num` give the
same `isValidMove` verdict. -/
theorem isValidMove_congr (g1 g2 : Grid) (r c : Nat) (num : JsNum)
    (hr : r < 9) (hc : c < 9)
    (h : ∀ a < 9, ∀ b < 9,
      jsEqCell (getCell g1 a b) num = jsEqCell (getCell g2 a b) num) :
    isValidMove g1 r c num = isValidMove g2 r c num := by
  rw [Bool.eq_iff_iff, isValidMove_iff, isValidMove_iff]
  constructor
  · rintro ⟨h1, h2, h3⟩
    refine ⟨fun x hx => ?_, fun x hx => ?_, fun i hi j hj => ?_⟩
    · rw [← h r hr x hx]; exact h1 x hx
    · rw [← h x hx c hc]; exact h2 x hx
    · rw [← h (r / 3 * 3 + i) (by omega) (c / 3 * 3 + j) (by omega)]
      exact h3 i hi j hj
  · rintro ⟨h1, h2, h3⟩
    refine ⟨fun x hx => ?_, fun x hx => ?_, fun i hi j hj => ?_⟩
    · rw [h r hr x hx]; exact h1 x hx
    · rw [h x hx c hc]; exact h2 x hx
    · rw [h (r / 3 * 3 + i) (by omega) (c / 3 * 3 + j) (by omega)]
      exact h3 i hi j hj

/-- The digit loop of `getHint` never resets its working copy, so later
iterations check `isValidMove` on a copy still holding the previously
tried digit; since that digit differs from every digit still to be
tried, the verdicts agree with the pristine board, and the loop returns
exactly the least digit of the list for which `hintP` holds. -/
theorem hintTryNums_spec (b : Grid) (r c : Nat)
    (hWF : WF b) (hr : r < 9) (hc : c < 9) (hcell : getCell b r c = none) :
    ∀ l : List Int, l.Pairwise (· < ·) →
      ∀ bc : Grid,
        (bc = b ∨ ∃ p : Int,
          bc = setCell b r c (some (JsNum.int p)) ∧ ∀ n ∈ l, p ≠ n) →
        ((∀ n : Int, hintTryNums bc r c l = some n →
            n ∈ l ∧ hintP b r c n ∧ ∀ m ∈ l, m < n → ¬ hintP b r c m) ∧
         (hintTryNums bc r c l = none ↔ ∀ m ∈ l, ¬ hintP b r c m)) := by
  intro l
  induction l with
  | nil =>
    intro _ bc _
    constructor
    · intro n hn; simp [hintTryNums] at hn
    · simp [hintTryNums]
  | cons d rest ih =>
    intro hpair bc hbc
    have hpair2 := List.pairwise_cons.1 hpair
    have hvm_eq : isValidMove bc r c (JsNum.int d) = isValidMove b r c (JsNum.int d) := by
      rcases hbc with rfl | ⟨p, rfl, hp⟩
      · rfl
      · apply isValidMove_congr _ _ r c _ hr hc
        intro a ha bb hb
        by_cases hab : a = r ∧ bb = c
        · obtain ⟨rfl, rfl⟩ := hab
          rw [getCell_setCell_self b a bb _ hWF hr hc, hcell]
          have hpd : p ≠ d := hp d (List.mem_cons_self _ _)
          simp [jsEqCell, jsEq, hpd]
        · rw [getCell_setCell_ne b r c _ a bb hab]
    have hsolve_eq : setCell bc r c (some (JsNum.int d)) =
        setCell b r c (some (JsNum.int d)) := by
      rcases hbc with rfl | ⟨p, rfl, _⟩
      · rfl
      · rw [setCell_setCell]
    rw [hintTryNums, hvm_eq, hsolve_eq]
    by_cases hvd : isValidMove b r c (JsNum.int d) = true
    · rw [if_pos hvd]
      by_cases hsd : (solveGrid (setCell b r c (some (JsNum.int d)))).1 = true
      · rw [if_pos hsd]
        constructor
        · intro n hn
          obtain rfl : d = n := Option.some_injective _ hn
          refine ⟨List.mem_cons_self _ _, ⟨hvd, hsd⟩, ?_⟩
          intro m hm hlt
          rcases List.mem_cons.1 hm with rfl | hm2
          · omega
          · have := hpair2.1 m hm2
            omega
        · constructor
          · intro habs; cases habs
          · intro hall
            exact absurd ⟨hvd, hsd⟩ (hall d (List.mem_cons_self _ _))
      · rw [if_neg hsd]
        have hinv2 : setCell b r c (some (JsNum.int d)) = b ∨
            ∃ p : Int, setCell b r c (some (JsNum.int d)) =
              setCell b r c (some (JsNum.int p)) ∧ ∀ n ∈ rest, p ≠ n :=
          Or.inr ⟨d, rfl, fun n hn heq => by
            have := hpair2.1 n hn
            omega⟩
        obtain ⟨ih1, ih2⟩ := ih hpair2.2 _ hinv2
        constructor
        · intro n hn
          obtain ⟨hmem, hPn, hmin⟩ := ih1 n hn
          refine ⟨List.mem_cons_of_mem _ hmem, hPn, ?_⟩
          intro m hm hlt
          rcases List.mem_cons.1 hm with rfl | hm2
          · rintro ⟨_, h2⟩; exact hsd h2
          · exact hmin m hm2 hlt
        · rw [ih2]
          constructor
          · intro hall m hm
            rcases List.mem_cons.1 hm with rfl | hm2
            · rintro ⟨_, h2⟩; exact hsd h2
            · exact hall m hm2
          · intro hall m hm
            exact hall m (List.mem_cons_of_mem _ hm)
    · rw [if_neg hvd]
      have hbc2 : bc = b ∨ ∃ p : Int,
          bc = setCell b r c (some (JsNum.int p)) ∧ ∀ n ∈ rest, p ≠ n := by
        rcases hbc with rfl | ⟨p, rfl, hp⟩
        · exact Or.inl rfl
        · exact Or.inr ⟨p, rfl, fun n hn => hp n (List.mem_cons_of_mem _ hn)⟩
      obtain ⟨ih1, ih2⟩ := ih hpair2.2 bc hbc2
      constructor
      · intro n hn
        obtain ⟨hmem, hPn, hmin⟩ := ih1 n hn
        refine ⟨List.mem_cons_of_mem _ hmem, hPn, ?_⟩
        intro m hm hlt
        rcases List.mem_cons.1 hm with rfl | hm2
        · rintro ⟨h1, _⟩; exact hvd h1
        · exact hmin m hm2 hlt
      · rw [ih2]
        constructor
        · intro hall m hm
          rcases List.mem_cons.1 hm with rfl | hm2
          · rintro ⟨h1, _⟩; exact hvd h1
          · exact hall m hm2
        · intro hall m hm
          exact hall m (List.mem_cons_of_mem _ hm)

/-! ### Transfer lemmas between a grid and the grid with one valid
placement added -/

/-- A completion of the grid with a checker-approved digit placed at an
empty cell is a completion of the grid itself. -/
theorem Completion_unset (g : Grid) (r c : Nat) (n : Int)
    (hWF : WF g) (hr : r < 9) (hc : c < 9)
    (hcell : getCell g r c = none) (hnd : n ∈ digits)
    (hv : isValidMove g r c (JsNum.int n) = true) (g2 : Grid)
    (hcomp : Completion (setCell g r c (some (JsNum.int n))) g2) :
    Completion g g2 := by
  have hg1rc : getCell (setCell g r c (some (JsNum.int n))) r c =
      some (JsNum.int n) := getCell_setCell_self g r c _ hWF hr hc
  have hg2rc : getCell g2 r c = some (JsNum.int n) := by
    have := hcomp.2.1 r hr c hc (by rw [hg1rc]; simp)
    rw [this, hg1rc]
  refine ⟨hcomp.1, ?_, ?_⟩
  · intro a ha b hb hne0
    have hab : ¬(a = r ∧ b = c) := by
      rintro ⟨rfl, rfl⟩
      exact hne0 hcell
    have heq1 : getCell (setCell g r c (some (JsNum.int n))) a b = getCell g a b :=
      getCell_setCell_ne g r c _ a b hab
    have := hcomp.2.1 a ha b hb (by rw [heq1]; exact hne0)
    rw [this, heq1]
  · intro a ha b hb hnone
    by_cases hab : a = r ∧ b = c
    · obtain ⟨rfl, rfl⟩ := hab
      constructor
      · exact ⟨n, hnd, hg2rc⟩
      · intro r2 hr2 c2 hc2 hcond
        obtain ⟨hpeer, hne⟩ := hcond
        rw [hg2rc]
        by_cases h2none : getCell g r2 c2 = none
        · have h2none1 : getCell (setCell g a b (some (JsNum.int n))) r2 c2 = none := by
            rw [getCell_setCell_ne g a b _ r2 c2 hne]
            exact h2none
          have hdist := (hcomp.2.2 r2 hr2 c2 hc2 h2none1).2 a ha b hb
            ⟨isPeer_symm a b r2 c2 hpeer, fun hx => hne ⟨hx.1.symm, hx.2.symm⟩⟩
          intro heq
          exact hdist (by rw [hg2rc, heq])
        · have hfalse := peer_not_eq_of_isValidMove g a b r2 c2 _ hr2 hc2 hpeer hv
          have hne2 : getCell g r2 c2 ≠ some (JsNum.int n) :=
            (jsEqCell_int_false_iff _ _).1 hfalse
          have hkeep1 : getCell (setCell g a b (some (JsNum.int n))) r2 c2 =
              getCell g r2 c2 := getCell_setCell_ne g a b _ r2 c2 hne
          have hkeep2 := hcomp.2.1 r2 hr2 c2 hc2 (by rw [hkeep1]; exact h2none)
          rw [hkeep2, hkeep1]
          exact hne2
    · have h1none : getCell (setCell g r c (some (JsNum.int n))) a b = none := by
        rw [getCell_setCell_ne g r c _ a b hab]
        exact hnone
      exact hcomp.2.2 a ha b hb h1none

/-- The digit a completion holds at an empty cell passes the checker
there. -/
theorem isValidMove_of_completion (g gs : Grid) (hcomp : Completion g gs)
    (r c : Nat) (hr : r < 9) (hc : c < 9) (hcell : getCell g r c = none)
    (n : Int) (hval : getCell gs r c = some (JsNum.int n)) :
    isValidMove g r c (JsNum.int n) = true := by
  have hok := (hcomp.2.2 r hr c hc hcell).2
  apply isValidMove_of_peers g r c _ hr hc
  intro r2 hr2 c2 hc2 hpeer
  rw [jsEqCell_int_false_iff]
  intro habs
  by_cases hne : r2 = r ∧ c2 = c
  · obtain ⟨rfl, rfl⟩ := hne
    rw [hcell] at habs
    exact absurd habs (by simp)
  · have hkeep : getCell gs r2 c2 = getCell g r2 c2 :=
      hcomp.2.1 r2 hr2 c2 hc2 (by rw [habs]; simp)
    exact hok r2 hr2 c2 hc2 ⟨hpeer, hne⟩ (by rw [hkeep, habs, hval])

/-- A completion of a grid is also a completion of the grid with the
completion's own digit placed at one of the empty cells. -/
theorem Completion_set (g gs : Grid) (hcomp : Completion g gs)
    (r c : Nat) (n : Int) (hWF : WF g) (hr : r < 9) (hc : c < 9)
    (hcell : getCell g r c = none) (hval : getCell gs r c = some (JsNum.int n)) :
    Completion (setCell g r c (some (JsNum.int n))) gs := by
  refine ⟨hcomp.1, ?_, ?_⟩
  · intro a ha b hb hne0
    by_cases hab : a = r ∧ b = c
    · obtain ⟨rfl, rfl⟩ := hab
      rw [getCell_setCell_self g a b _ hWF hr hc]
      exact hval
    · rw [getCell_setCell_ne g r c _ a b hab] at hne0 ⊢
      exact hcomp.2.1 a ha b hb hne0
  · intro a ha b hb hnone1
    have hab : ¬(a = r ∧ b = c) := by
      rintro ⟨rfl, rfl⟩
      rw [getCell_setCell_self g a b _ hWF hr hc] at hnone1
      exact absurd hnone1 (by simp)
    rw [getCell_setCell_ne g r c _ a b hab] at hnone1
    exact hcomp.2.2 a ha b hb hnone1

/-- If no digit works at one empty cell of the board, then no digit
works at any empty cell: a success elsewhere would yield a completion of
the whole board, whose digit at the failed cell would have worked. -/
theorem hint_fail_propagates (board : Grid) (hWF : WF board)
    (r c : Nat) (hr : r < 9) (hc : c < 9)
    (hcell : getCell board r c = none)
    (hfail : ∀ m ∈ digits, ¬ hintP board r c m) :
    ∀ r2 c2, r2 < 9 → c2 < 9 → getCell board r2 c2 = none →
      ∀ m ∈ digits, ¬ hintP board r2 c2 m := by
  intro r2 c2 hr2 hc2 hcell2 m hm
  rintro ⟨hv2, hs2⟩
  have hWF2 : WF (setCell board r2 c2 (some (JsNum.int m))) :=
    WF_setCell board r2 c2 _ hWF
  have hcomp2 : Completion (setCell board r2 c2 (some (JsNum.int m)))
      (solveGrid (setCell board r2 c2 (some (JsNum.int m)))).2 :=
    solveGridAux_sound 82 _ hWF2 hs2
  have hcompb : Completion board
      (solveGrid (setCell board r2 c2 (some (JsNum.int m)))).2 :=
    Completion_unset board r2 c2 m hWF hr2 hc2 hcell2 hm hv2 _ hcomp2
  obtain ⟨⟨w, hw, hwval⟩, _⟩ := hcompb.2.2 r hr c hc hcell
  apply hfail w hw
  constructor
  · exact isValidMove_of_completion board _ hcompb r c hr hc hcell w hwval
  · apply solveGridAux_complete 82 _ (WF_setCell board r c _ hWF)
      (by have := emptiesCount_le (setCell board r c (some (JsNum.int w))); omega)
    exact ⟨_, Completion_set board _ hcompb r c w hWF hr hc hcell hwval⟩

/-! ### The hint cell scan -/

theorem hintScan_some (board : Grid) :
    ∀ (fuel k : Nat) (h : Hint), hintScan board fuel k = some h →
      ∃ j, k ≤ j ∧ j < k + fuel ∧ h.row = j / 9 ∧ h.col = j % 9 ∧
        getCell board h.row h.col = none ∧
        hintTryNums board h.row h.col digits = some h.value ∧
        ∀ i, k ≤ i → i < j → getCell board (i / 9) (i % 9) = none →
          hintTryNums board (i / 9) (i % 9) digits = none := by
  intro fuel
  induction fuel with
  | zero => intro k h hsc; simp [hintScan] at hsc
  | succ m ih =>
    intro k h hsc
    unfold hintScan at hsc
    by_cases hcellk : getCell board (k / 9) (k % 9) = none
    · rw [if_pos hcellk] at hsc
      rcases htry : hintTryNums board (k / 9) (k % 9) digits with _ | n
      · rw [htry] at hsc
        obtain ⟨j, hj1, hj2, hj3, hj4, hj5, hj6, hj7⟩ := ih (k + 1) h hsc
        refine ⟨j, by omega, by omega, hj3, hj4, hj5, hj6, ?_⟩
        intro i h1 h2 h3
        rcases Nat.eq_or_lt_of_le h1 with rfl | hlt
        · exact htry
        · exact hj7 i hlt h2 h3
      · rw [htry] at hsc
        obtain rfl : Hint.mk (k / 9) (k % 9) n = h := Option.some_injective _ hsc
        refine ⟨k, le_refl k, by omega, rfl, rfl, hcellk, htry, ?_⟩
        intro i h1 h2
        omega
    · rw [if_neg hcellk] at hsc
      obtain ⟨j, hj1, hj2, hj3, hj4, hj5, hj6, hj7⟩ := ih (k + 1) h hsc
      refine ⟨j, by omega, by omega, hj3, hj4, hj5, hj6, ?_⟩
      intro i h1 h2 h3
      rcases Nat.eq_or_lt_of_le h1 with rfl | hlt
      · exact absurd h3 hcellk
      · exact hj7 i hlt h2 h3

theorem hintScan_none (board : Grid) :
    ∀ (fuel k : Nat), hintScan board fuel k = none →
      ∀ j, k ≤ j → j < k + fuel → getCell board (j / 9) (j % 9) = none →
        hintTryNums board (j / 9) (j % 9) digits = none := by
  intro fuel
  induction fuel with
  | zero => intro k _ j _ h2 _; omega
  | succ m ih =>
    intro k hsc j hj1 hj2 hj3
    unfold hintScan at hsc
    by_cases hcellk : getCell board (k / 9) (k % 9) = none
    · rw [if_pos hcellk] at hsc
      rcases htry : hintTryNums board (k / 9) (k % 9) digits with _ | n
      · rw [htry] at hsc
        rcases Nat.eq_or_lt_of_le hj1 with rfl | hlt
        · exact htry
        · exact ih (k + 1) hsc j hlt (by omega) hj3
      · rw [htry] at hsc
        cases hsc
    · rw [if_neg hcellk] at hsc
      rcases Nat.eq_or_lt_of_le hj1 with rfl | hlt
      · exact absurd hj3 hcellk
      · exact ih (k + 1) hsc j hlt (by omega) hj3

/-! ### Concrete game states for witnesses -/

/-- The all-empty 9×9 grid. -/
def emptyGrid : Grid := List.replicate 9 (List.replicate 9 (none : Cell))

/-- A fresh session over an empty puzzle (every cell editable). -/
def state0 : GameState := ⟨emptyGrid, emptyGrid, 0, 0, none, none, false, false⟩

/-- A session whose puzzle is fully given (every cell original). -/
def state1 : GameState := ⟨solved0, solved0, 0, 0, none, none, false, false⟩

/-- A session one cell away from completion, no hints used. -/
def state2 : GameState := ⟨puzzle0, puzzle0, 100, 0, none, none, false, false⟩

/-- A session that has already used the maximum number of hints. -/
def state3 : GameState := ⟨puzzle0, puzzle0, 0, 10, none, none, false, false⟩

/-! ### Claim C2 -/

/-- C2 (code bug): `updateCell` is claimed to store nothing when the
input string does not denote an integer 1..9, but `parseInt("x")` is
`NaN`, the range guard `numValue < 1 || numValue > 9` is false for `NaN`
in JavaScript, and so `NaN` is written into the board cell: the call on
the empty board changes cell (0,0) from empty to `NaN`, violating the
invariant that every cell is empty or an integer in 1..9. -/
theorem updateCell_nan_stored :
    parseIntJs "x" = JsNum.nan ∧
    getCell state0.board 0 0 = none ∧
    getCell ((updateCell 0 state0 0 0 "x").board) 0 0 = some JsNum.nan := by
  refine ⟨rfl, rfl, ?_⟩
  decide

/-! ### Claim C9 -/

/-- C9: a call of `updateCell` on an original cell (one the puzzle
fills) returns the game state unchanged — board, score and hints — so
the board keeps agreeing with the puzzle on every original cell. -/
theorem updateCell_original_frame (now : Int) (s : GameState) (row col : Nat)
    (value : String) (h : isOriginalCell s row col = true) :
    updateCell now s row col value = s := by
  unfold updateCell
  rw [if_pos h]

/-- Witness for C9 at a concrete input: cell (0,0) of `state1` is
original and the call is the identity. -/
theorem updateCell_original_frame_witness :
    isOriginalCell state1 0 0 = true ∧ updateCell 0 state1 0 0 "7" = state1 :=
  ⟨by decide, updateCell_original_frame 0 state1 0 0 "7" (by decide)⟩

/-! ### Claim C8 -/

/-- C8: whenever `getHint` succeeds, the score drops by exactly
`baseHintPenalty + hintsUsed · hintPenaltyIncrement` = `3 + hintsUsed·1`
computed from the hints-used count before it is incremented, and the
count then increments by one; so the Nth successful hint of a session
costs `3 + (N−1)·1` and the first costs exactly 3. -/
theorem getHint_penalty (s : GameState) (h0 : Hint)
    (hsucc : (getHint s).1 = some h0) :
    (getHint s).2.score = s.score - (SCORING_CONFIG.baseHintPenalty +
      (s.hintsUsed : Int) * SCORING_CONFIG.hintPenaltyIncrement) ∧
    (getHint s).2.score = s.score - (3 + (s.hintsUsed : Int) * 1) ∧
    (getHint s).2.hintsUsed = s.hintsUsed + 1 := by
  unfold getHint at *
  by_cases hcap : SCORING_CONFIG.maxHints ≤ s.hintsUsed
  · rw [if_pos hcap] at hsucc
    exact absurd hsucc (by simp)
  · rw [if_neg hcap] at hsucc ⊢
    rcases hsc : hintScan s.board 81 0 with _ | h1
    · rw [hsc] at hsucc
      exact absurd hsucc (by simp)
    · exact ⟨rfl, rfl, rfl⟩

/-- Witness for C8 at a concrete input: the first hint on `state2`
(hints used so far: 0) costs exactly 3, dropping the score from 100 to
97. -/
theorem getHint_penalty_witness :
    (getHint state2).1 = some ⟨0, 0, 5⟩ ∧
    ((getHint state2).2.score = state2.score - (SCORING_CONFIG.baseHintPenalty +
      (state2.hintsUsed : Int) * SCORING_CONFIG.hintPenaltyIncrement) ∧
     (getHint state2).2.score = state2.score - (3 + (state2.hintsUsed : Int) * 1) ∧
     (getHint state2).2.hintsUsed = state2.hintsUsed + 1) :=
  ⟨by decide, getHint_penalty state2 ⟨0, 0, 5⟩ (by decide)⟩

/-! ### Claim C10 -/

/-- C10: `getHint` enforces the cap itself: with `hintsUsed ≥ maxHints`
(10) it returns `null` leaving the state unchanged, regardless of the
board; every successful call increments `hintsUsed` by exactly one and
only happens below the cap; unsuccessful calls leave the state
unchanged; hence `hintsUsed` never exceeds 10. -/
theorem getHint_cap_spec (s : GameState) :
    (SCORING_CONFIG.maxHints ≤ s.hintsUsed → getHint s = (none, s)) ∧
    (∀ h0 : Hint, (getHint s).1 = some h0 →
      (getHint s).2.hintsUsed = s.hintsUsed + 1 ∧
      s.hintsUsed < SCORING_CONFIG.maxHints) ∧
    ((getHint s).1 = none → (getHint s).2 = s) ∧
    (s.hintsUsed ≤ SCORING_CONFIG.maxHints →
      (getHint s).2.hintsUsed ≤ SCORING_CONFIG.maxHints) := by
  by_cases hcap : SCORING_CONFIG.maxHints ≤ s.hintsUsed
  · have h1 : getHint s = (none, s) := by
      unfold getHint
      rw [if_pos hcap]
    refine ⟨fun _ => h1, ?_, ?_, ?_⟩
    · intro h0 hs
      rw [h1] at hs
      exact absurd hs (by simp)
    · intro _
      rw [h1]
    · intro hle
      rw [h1]
      exact hle
  · have hne := hcap
    push_neg at hcap
    refine ⟨fun hc => absurd hc hne, ?_, ?_, ?_⟩
    · intro h0 hs
      unfold getHint at hs ⊢
      rw [if_neg hne] at hs ⊢
      rcases hsc : hintScan s.board 81 0 with _ | h1
      · rw [hsc] at hs
        exact absurd hs (by simp)
      · exact ⟨rfl, hcap⟩
    · intro hnone
      unfold getHint at hnone ⊢
      rw [if_neg hne] at hnone ⊢
      rcases hsc : hintScan s.board 81 0 with _ | h1
      · rfl
      · rw [hsc] at hnone
        exact absurd hnone (by simp)
    · intro _
      unfold getHint
      rw [if_neg hne]
      rcases hsc : hintScan s.board 81 0 with _ | h1
      · show s.hintsUsed ≤ SCORING_CONFIG.maxHints
        exact Nat.le_of_lt hcap
      · show s.hintsUsed + 1 ≤ SCORING_CONFIG.maxHints
        omega

/-- Witness for C10 at a concrete input: `state3` has used all 10
hints, and `getHint` returns `null` leaving the state unchanged. -/
theorem getHint_cap_spec_witness : getHint state3 = (none, state3) :=
  (getHint_cap_spec state3).1 (by decide)

/-! ### Claim C5 -/

/-- C5: the caller's board is never modified by `getHint`; whenever a
hint is returned, its cell is the first empty cell of the board in
row-major order and its value is the least digit of 1..9 that passes the
constraint checker there and whose tentative placement on a working copy
the solver can complete (`hintP`); and when no digit works at the first
empty cell, `getHint` returns none (the scan does visit later cells, but
a success there would give a completion of the whole board and hence a
working digit at the first empty cell). -/
theorem getHint_hint_spec (s : GameState) (hWF : WF s.board) :
    ((getHint s).2.board = s.board) ∧
    (∀ h : Hint, (getHint s).1 = some h →
      firstEmpty s.board = some (h.row, h.col) ∧ h.value ∈ digits ∧
      hintP s.board h.row h.col h.value ∧
      (∀ m ∈ digits, m < h.value → ¬ hintP s.board h.row h.col m)) ∧
    (∀ r c, firstEmpty s.board = some (r, c) →
      (∀ m ∈ digits, ¬ hintP s.board r c m) → (getHint s).1 = none) := by
  refine ⟨?_, ?_, ?_⟩
  · unfold getHint
    by_cases hcap : SCORING_CONFIG.maxHints ≤ s.hintsUsed
    · rw [if_pos hcap]
    · rw [if_neg hcap]
      rcases hsc : hintScan s.board 81 0 with _ | h0
      · rfl
      · rfl
  · intro h hsucc
    unfold getHint at hsucc
    by_cases hcap : SCORING_CONFIG.maxHints ≤ s.hintsUsed
    · rw [if_pos hcap] at hsucc
      exact absurd hsucc (by simp)
    · rw [if_neg hcap] at hsucc
      rcases hsc : hintScan s.board 81 0 with _ | h0
      · rw [hsc] at hsucc
        exact absurd hsucc (by simp)
      · rw [hsc] at hsucc
        simp only at hsucc
        obtain rfl : h0 = h := Option.some_injective _ hsucc
        obtain ⟨j, hj1, hj2, hj3, hj4, hj5, hj6, hj7⟩ :=
          hintScan_some s.board 81 0 h0 hsc
        have hrow9 : h0.row < 9 := by rw [hj3]; omega
        have hcol9 : h0.col < 9 := by rw [hj4]; omega
        obtain ⟨ht1, _⟩ := hintTryNums_spec s.board h0.row h0.col hWF hrow9 hcol9
          hj5 digits (by decide) s.board (Or.inl rfl)
        obtain ⟨hmem, hPv, hmin⟩ := ht1 h0.value hj6
        have hj5k : getCell s.board (j / 9) (j % 9) = none := by
          rw [← hj3, ← hj4]
          exact hj5
        have hfe : firstEmpty s.board = some (h0.row, h0.col) := by
          rcases hfe0 : firstEmpty s.board with _ | ⟨r1, c1⟩
          · exact absurd hj5 (firstEmpty_none s.board hfe0 h0.row hrow9 h0.col hcol9)
          · obtain ⟨hr1, hc1, hcell1, hmin1⟩ := firstEmpty_some s.board r1 c1 hfe0
            have hj1le : r1 * 9 + c1 ≤ j := by
              by_contra hgt
              push_neg at hgt
              exact hmin1 (j / 9) (j % 9) (by omega) (by omega) hj5k
            rcases Nat.eq_or_lt_of_le hj1le with heq | hlt
            · have hpr : r1 = h0.row ∧ c1 = h0.col := by
                rw [hj3, hj4]
                omega
              rw [hpr.1, hpr.2]
            · have hd1 : (r1 * 9 + c1) / 9 = r1 := by omega
              have hd2 : (r1 * 9 + c1) % 9 = c1 := by omega
              have htried := hj7 (r1 * 9 + c1) (by omega) hlt
                (by rw [hd1, hd2]; exact hcell1)
              rw [hd1, hd2] at htried
              obtain ⟨_, ht2b⟩ := hintTryNums_spec s.board r1 c1 hWF hr1 hc1
                hcell1 digits (by decide) s.board (Or.inl rfl)
              have hfail1 := ht2b.1 htried
              have := hint_fail_propagates s.board hWF r1 c1 hr1 hc1 hcell1
                hfail1 h0.row h0.col hrow9 hcol9 hj5 h0.value hmem
              exact absurd hPv this
        exact ⟨hfe, hmem, hPv, hmin⟩
  · intro r c hfe hfail
    obtain ⟨hr9, hc9, hcellrc, _⟩ := firstEmpty_some s.board r c hfe
    unfold getHint
    by_cases hcap : SCORING_CONFIG.maxHints ≤ s.hintsUsed
    · rw [if_pos hcap]
    · rw [if_neg hcap]
      rcases hsc : hintScan s.board 81 0 with _ | h0
      · rfl
      · exfalso
        obtain ⟨j, hj1, hj2, hj3, hj4, hj5, hj6, hj7⟩ :=
          hintScan_some s.board 81 0 h0 hsc
        have hrow9 : h0.row < 9 := by rw [hj3]; omega
        have hcol9 : h0.col < 9 := by rw [hj4]; omega
        obtain ⟨ht1, _⟩ := hintTryNums_spec s.board h0.row h0.col hWF hrow9 hcol9
          hj5 digits (by decide) s.board (Or.inl rfl)
        obtain ⟨hmem, hPv, _⟩ := ht1 h0.value hj6
        exact hint_fail_propagates s.board hWF r c hr9 hc9 hcellrc hfail
          h0.row h0.col hrow9 hcol9 hj5 h0.value hmem hPv

/-- Witness for C5 at a concrete input: the theorem applies to the
session over the canonical test puzzle (cell (0,0) blanked). -/
theorem getHint_hint_spec_witness :
    WF state2.board ∧
    (((getHint state2).2.board = state2.board) ∧
     (∀ h : Hint, (getHint state2).1 = some h →
       firstEmpty state2.board = some (h.row, h.col) ∧ h.value ∈ digits ∧
       hintP state2.board h.row h.col h.value ∧
       (∀ m ∈ digits, m < h.value → ¬ hintP state2.board h.row h.col m)) ∧
     (∀ r c, firstEmpty state2.board = some (r, c) →
       (∀ m ∈ digits, ¬ hintP state2.board r c m) → (getHint state2).1 = none)) :=
  ⟨by decide, getHint_hint_spec state2 (by decide)⟩

/-! ### The puzzle generator (`generateSudokuPuzzle`, `generateSolvedGrid`,
`fillBox` from `useSudokuGame.ts`)

Randomness model: the program draws `Math.floor(Math.random() * n)` at a
sequence of call sites; the k-th draw is modelled as `rand k % n` for an
arbitrary stream `rand : Nat → Nat`, which ranges over exactly the
values `0 ≤ j < n` as `rand` varies.  Theorems quantify over every
stream, covering every possible outcome of the random choices. -/

/-- A stream of random draws. -/
abbrev Rand := Nat → Nat

/-- The nested `for i / for j` loop of `fillBox`: at cell `t` (0..8, in
row-major order inside the box) pick a random index into the remaining
`numbers`, place that number, and remove it (`numbers.splice`).  `k` is
the position in the draw stream. -/
def fillBoxAux (rand : Rand) (startRow startCol : Nat) :
    Nat → Nat → Nat → Grid → List Int → Grid
  | 0, _, _, g, _ => g
  | fuel + 1, t, k, g, numbers =>
    let idx := rand k % numbers.length
    fillBoxAux rand startRow startCol fuel (t + 1) (k + 1)
      (setCell g (startRow * 3 + t / 3) (startCol * 3 + t % 3)
        (some (JsNum.int (numbers.getD idx 0))))
      (numbers.eraseIdx idx)

/-- `fillBox(grid, startRow, startCol)`: fill the box with a random
permutation of 1..9. -/
def fillBox (rand : Rand) (k : Nat) (g : Grid) (startRow startCol : Nat) : Grid :=
  fillBoxAux rand startRow startCol 9 0 k g digits

/-- The seeding step of `generateSolvedGrid`:
`for (i = 0; i < 9; i += 4) fillBox(grid, Math.floor(i / 3), i % 3)`
fills the three diagonal boxes (0,0), (1,1), (2,2) of the empty grid,
consuming draws 0..26. -/
def seedGrid (rand : Rand) : Grid :=
  fillBox rand 18 (fillBox rand 9 (fillBox rand 0 emptyGrid 0 0) 1 1) 2 2

/-- `generateSolvedGrid()`: seed the diagonal boxes, then run the
backtracking solver in place, ignoring its Boolean result. -/
def generateSolvedGrid (rand : Rand) : Grid :=
  (solveGrid (seedGrid rand)).2

/-- The `positions` array: all 81 coordinates in row-major order. -/
def allPositions : List (Nat × Nat) :=
  (List.range 9).flatMap fun r => (List.range 9).map fun c => (r, c)

/-- `[positions[i], positions[j]] = [positions[j], positions[i]]`. -/
def listSwap {α : Type} (l : List α) (i j : Nat) (d : α) : List α :=
  (l.set i (l.getD j d)).set j (l.getD i d)

/-- The Fisher–Yates loop
`for (i = positions.length - 1; i > 0; i--)`: the loop variable `i` is
`fuel + 1`, counting 80 down to 1, and `j` is a random index in
`0..i`. -/
def shuffleAux (rand : Rand) : Nat → Nat → List (Nat × Nat) → List (Nat × Nat)
  | 0, _, l => l
  | fuel + 1, k, l =>
    shuffleAux rand fuel (k + 1)
      (listSwap l (fuel + 1) (rand k % (fuel + 1 + 1)) (0, 0))

/-- The removal loop: blank the listed coordinates in order on the
puzzle copy. -/
def blankCells : List (Nat × Nat) → Grid → Grid
  | [], g => g
  | p :: rest, g => blankCells rest (setCell g p.1 p.2 none)

/-- `generateSudokuPuzzle(difficulty)`: draw the visible count `V` in
the tier's inclusive range (draw 27), shuffle the 81 coordinates
(draws 28..107), and blank the first `81 − V` shuffled coordinates on a
copy of the solved grid. -/
def generateSudokuPuzzle (rand : Rand) (difficulty : Difficulty) : Grid :=
  let solvedGrid := generateSolvedGrid rand
  let config := DIFFICULTY_CONFIGS difficulty
  let cellsToRemove :=
    81 - (rand 27 % (config.maxVisible - config.minVisible + 1) + config.minVisible)
  let positions := shuffleAux rand 80 28 allPositions
  blankCells (positions.take cellsToRemove) solvedGrid

/-- Number of non-empty cells among the 81 cells of the grid (the
visible count of a puzzle). -/
def nonEmptyCount (g : Grid) : Nat :=
  (List.range 81).countP fun k => decide (getCell g (k / 9) (k % 9) ≠ none)

/-! ### More counting lemmas -/

theorem countP_congr_mem {α : Type} (p q : α → Bool) :
    ∀ l : List α, (∀ x ∈ l, p x = q x) → l.countP p = l.countP q := by
  intro l
  induction l with
  | nil => intro _; rfl
  | cons a t ih =>
    intro h
    rw [List.countP_cons, List.countP_cons, h a (List.mem_cons_self _ _),
      ih fun x hx => h x (List.mem_cons_of_mem _ hx)]

theorem countP_flip_add_one (p p2 : Nat → Bool) (k0 : Nat) :
    ∀ l : List Nat, l.Nodup → k0 ∈ l → p k0 = false → p2 k0 = true →
      (∀ x ∈ l, x ≠ k0 → p2 x = p x) → l.countP p2 = l.countP p + 1 := by
  intro l
  induction l with
  | nil => intro _ h; simp at h
  | cons a t ih =>
    intro hnd hmem hp hp2 hagree
    rw [List.countP_cons, List.countP_cons]
    rcases eq_or_ne a k0 with rfl | hne
    · have hk0t : a ∉ t := (List.nodup_cons.1 hnd).1
      have heq : t.countP p2 = t.countP p := by
        apply countP_congr_mem
        intro x hx
        exact hagree x (List.mem_cons_of_mem _ hx) fun hxa => hk0t (hxa ▸ hx)
      rw [heq, hp, hp2]
      simp
    · have hk0t : k0 ∈ t := by
        rcases List.mem_cons.1 hmem with h | h
        · exact absurd h.symm hne
        · exact h
      have ha := hagree a (List.mem_cons_self _ _) hne
      rw [ha, ih (List.nodup_cons.1 hnd).2 hk0t hp hp2
        fun x hx => hagree x (List.mem_cons_of_mem _ hx)]
      omega

theorem countP_add_countP_not {α : Type} (p : α → Bool) :
    ∀ l : List α, l.countP p + l.countP (fun x => ! p x) = l.length := by
  intro l
  induction l with
  | nil => rfl
  | cons a t ih =>
    rw [List.countP_cons, List.countP_cons]
    cases hp : p a <;> simp [hp] <;> omega

theorem emptiesCount_setCell_none (g : Grid) (r c : Nat)
    (hWF : WF g) (hr : r < 9) (hc : c < 9) (h : getCell g r c ≠ none) :
    emptiesCount (setCell g r c none) = emptiesCount g + 1 := by
  unfold emptiesCount
  apply countP_flip_add_one _ _ (r * 9 + c) (List.range 81) (List.nodup_range 81)
  · rw [List.mem_range]; omega
  · have hdiv : (r * 9 + c) / 9 = r := by omega
    have hmod : (r * 9 + c) % 9 = c := by omega
    rw [hdiv, hmod]
    simpa using h
  · have hdiv : (r * 9 + c) / 9 = r := by omega
    have hmod : (r * 9 + c) % 9 = c := by omega
    rw [hdiv, hmod]
    simp [getCell_setCell_self g r c none hWF hr hc]
  · intro x _ hxne
    have hne2 : ¬(x / 9 = r ∧ x % 9 = c) := by
      rintro ⟨h1, h2⟩
      exact hxne (by omega)
    rw [getCell_setCell_ne g r c none _ _ hne2]

theorem nonEmptyCount_add_emptiesCount (g : Grid) :
    nonEmptyCount g + emptiesCount g = 81 := by
  unfold nonEmptyCount emptiesCount
  have hc : ((List.range 81).countP fun k => decide (getCell g (k / 9) (k % 9) = none)) =
      (List.range 81).countP fun k => ! decide (getCell g (k / 9) (k % 9) ≠ none) := by
    apply countP_congr_mem
    intro x _
    by_cases h : getCell g (x / 9) (x % 9) = none <;> simp [h]
  rw [hc, countP_add_countP_not]
  simp

/-! ### Swap and shuffle lemmas -/

theorem list_count_set {α : Type} [DecidableEq α] (a d b : α) :
    ∀ (l : List α) (i : Nat), i < l.length →
      (l.set i a).count b + (if l.getD i d = b then 1 else 0) =
        l.count b + (if a = b then 1 else 0) := by
  intro l
  induction l with
  | nil => intro i h; simp at h
  | cons x t ih =>
    intro i hi
    cases i with
    | zero =>
      simp only [List.set, List.getD_cons_zero, List.count_cons]
      by_cases hab : a = b <;> by_cases hxb : x = b <;>
        simp [hab, hxb]
    | succ j =>
      have hj : j < t.length := by simpa using hi
      have ih2 := ih j hj
      simp only [List.set, List.getD_cons_succ, List.count_cons]
      by_cases hxb : x = b <;> simp [hxb] at ih2 ⊢ <;> omega

theorem listSwap_perm {α : Type} [DecidableEq α] (l : List α) (i j : Nat) (d : α)
    (hi : i < l.length) (hj : j < l.length) : (listSwap l i j d).Perm l := by
  rcases eq_or_ne i j with rfl | hne
  · unfold listSwap
    rw [List.set_set, list_set_getD_self l i d hi]
  · rw [List.perm_iff_count]
    intro b
    have h1 := list_count_set (l.getD i d) d b (l.set i (l.getD j d)) j
      (by rw [List.length_set]; exact hj)
    have hgd : (l.set i (l.getD j d)).getD j d = l.getD j d :=
      list_getD_set_ne l i j _ d hne
    rw [hgd] at h1
    have h2 := list_count_set (l.getD j d) d b l i hi
    unfold listSwap
    omega

theorem shuffleAux_perm (rand : Rand) :
    ∀ (fuel k : Nat) (l : List (Nat × Nat)), fuel + 1 ≤ l.length →
      (shuffleAux rand fuel k l).Perm l := by
  intro fuel
  induction fuel with
  | zero => intro k l _; exact List.Perm.refl l
  | succ m ih =>
    intro k l hlen
    have hjlt : rand k % (m + 1 + 1) < m + 1 + 1 := Nat.mod_lt _ (by omega)
    have hswap : (listSwap l (m + 1) (rand k % (m + 1 + 1)) (0, 0)).Perm l :=
      listSwap_perm l (m + 1) (rand k % (m + 1 + 1)) (0, 0)
        (by omega) (by omega)
    have hlen2 : m + 1 ≤ (listSwap l (m + 1) (rand k % (m + 1 + 1)) (0, 0)).length := by
      rw [hswap.length_eq]
      omega
    exact (ih (k + 1) _ hlen2).trans hswap

theorem allPositions_nodup : allPositions.Nodup := by decide

theorem allPositions_length : allPositions.length = 81 := by decide

theorem mem_allPositions (r c : Nat) : (r, c) ∈ allPositions ↔ r < 9 ∧ c < 9 := by
  simp only [allPositions, List.mem_flatMap, List.mem_map, List.mem_range, Prod.mk.injEq]
  constructor
  · rintro ⟨a, ha, b, hb, h1, h2⟩
    omega
  · rintro ⟨hr, hc⟩
    exact ⟨r, hr, c, hc, rfl, rfl⟩

/-! ### Blanking lemmas -/

theorem blankCells_WF : ∀ (ps : List (Nat × Nat)) (g : Grid), WF g →
    WF (blankCells ps g) := by
  intro ps
  induction ps with
  | nil => intro g hg; exact hg
  | cons p rest ih => intro g hg; exact ih _ (WF_setCell g p.1 p.2 none hg)

theorem getCell_blankCells_not_mem :
    ∀ (ps : List (Nat × Nat)) (g : Grid) (r c : Nat), (r, c) ∉ ps →
      getCell (blankCells ps g) r c = getCell g r c := by
  intro ps
  induction ps with
  | nil => intro g r c _; rfl
  | cons p rest ih =>
    intro g r c hmem
    have h1 : (r, c) ∉ rest := fun h => hmem (List.mem_cons_of_mem _ h)
    have h2 : ¬(r = p.1 ∧ c = p.2) := by
      rintro ⟨rfl, rfl⟩
      exact hmem (by simp)
    rw [blankCells, ih _ r c h1, getCell_setCell_ne g p.1 p.2 none r c h2]

theorem getCell_blankCells_none_stable :
    ∀ (ps : List (Nat × Nat)) (g : Grid) (r c : Nat),
      getCell g r c = none → getCell (blankCells ps g) r c = none := by
  intro ps
  induction ps with
  | nil => intro g r c h; exact h
  | cons p rest ih =>
    intro g r c h
    rw [blankCells]
    apply ih _ r c
    by_cases hpc : r = p.1 ∧ c = p.2
    · have h2 : getCell g p.1 p.2 = none := by
        rw [← hpc.1, ← hpc.2]
        exact h
      rw [setCell_none_of_none g p.1 p.2 h2]
      exact h
    · rw [getCell_setCell_ne g p.1 p.2 none r c hpc]
      exact h

theorem getCell_blankCells_mem :
    ∀ (ps : List (Nat × Nat)) (g : Grid) (r c : Nat), WF g → r < 9 → c < 9 →
      (r, c) ∈ ps → getCell (blankCells ps g) r c = none := by
  intro ps
  induction ps with
  | nil => intro g r c _ _ _ h; simp at h
  | cons p rest ih =>
    intro g r c hWF hr hc hmem
    rw [blankCells]
    rcases List.mem_cons.1 hmem with heq | hmem2
    · apply getCell_blankCells_none_stable rest _ r c
      rw [← heq]
      exact getCell_setCell_self g r c none hWF hr hc
    · exact ih _ r c (WF_setCell g p.1 p.2 none hWF) hr hc hmem2

theorem emptiesCount_blankCells :
    ∀ (ps : List (Nat × Nat)) (g : Grid), WF g → ps.Nodup →
      (∀ p ∈ ps, p.1 < 9 ∧ p.2 < 9 ∧ getCell g p.1 p.2 ≠ none) →
      emptiesCount (blankCells ps g) = emptiesCount g + ps.length := by
  intro ps
  induction ps with
  | nil => intro g _ _ _; rfl
  | cons p rest ih =>
    intro g hWF hnd hps
    obtain ⟨hp1, hp2, hp3⟩ := hps p (List.mem_cons_self _ _)
    have hstep : emptiesCount (setCell g p.1 p.2 none) = emptiesCount g + 1 :=
      emptiesCount_setCell_none g p.1 p.2 hWF hp1 hp2 hp3
    have hrest : ∀ q ∈ rest, q.1 < 9 ∧ q.2 < 9 ∧
        getCell (setCell g p.1 p.2 none) q.1 q.2 ≠ none := by
      intro q hq
      obtain ⟨hq1, hq2, hq3⟩ := hps q (List.mem_cons_of_mem _ hq)
      refine ⟨hq1, hq2, ?_⟩
      have hqp : ¬(q.1 = p.1 ∧ q.2 = p.2) := by
        rintro ⟨h1, h2⟩
        have : q = p := Prod.ext h1 h2
        exact (List.nodup_cons.1 hnd).1 (this ▸ hq)
      rw [getCell_setCell_ne g p.1 p.2 none q.1 q.2 hqp]
      exact hq3
    rw [blankCells, ih _ (WF_setCell g p.1 p.2 none hWF)
      (List.nodup_cons.1 hnd).2 hrest, hstep]
    simp only [List.length_cons]
    omega

/-! ### The solver preserves well-formedness -/

theorem tryNums_WF (recur : Grid → Bool × Grid)
    (hrec : ∀ g, WF g → WF (recur g).2) (g : Grid) (r c : Nat) (hg : WF g) :
    ∀ l, WF (tryNums recur g r c l).2 := by
  intro l
  induction l generalizing g with
  | nil => exact hg
  | cons n rest ih =>
    by_cases hv : isValidMove g r c (JsNum.int n) = true
    · rcases hrek : recur (setCell g r c (some (JsNum.int n))) with ⟨b, g2⟩
      have hg2WF : WF g2 := by
        have := hrec (setCell g r c (some (JsNum.int n))) (WF_setCell g r c _ hg)
        rw [hrek] at this
        exact this
      cases b with
      | true =>
        rw [tryNums, if_pos hv, hrek]
        exact hg2WF
      | false =>
        rw [tryNums, if_pos hv, hrek]
        simp only
        exact ih _ (WF_setCell g2 r c none hg2WF)
    · rw [tryNums, if_neg hv]
      exact ih _ hg

theorem solveGridAux_WF (fuel : Nat) :
    ∀ g, WF g → WF (solveGridAux fuel g).2 := by
  induction fuel with
  | zero => intro g hg; exact hg
  | succ m ih =>
    intro g hg
    rcases hfe : firstEmpty g with _ | ⟨r, c⟩
    · rw [solveGridAux, hfe]
      exact hg
    · rw [solveGridAux, hfe]
      exact tryNums_WF (solveGridAux m) ih g r c hg digits

/-! ### The C7 statement, conditional on the seeding being solvable -/

theorem fillBoxAux_WF (rand : Rand) (sR sC : Nat) :
    ∀ (fuel t k : Nat) (g : Grid) (numbers : List Int), WF g →
      WF (fillBoxAux rand sR sC fuel t k g numbers) := by
  intro fuel
  induction fuel with
  | zero => intro t k g numbers hg; exact hg
  | succ m ih =>
    intro t k g numbers hg
    rw [fillBoxAux]
    exact ih _ _ _ _ (WF_setCell g _ _ _ hg)

theorem emptyGrid_WF : WF emptyGrid := by decide

theorem seedGrid_WF (rand : Rand) : WF (seedGrid rand) :=
  fillBoxAux_WF rand 2 2 9 0 18 _ _
    (fillBoxAux_WF rand 1 1 9 0 9 _ _
      (fillBoxAux_WF rand 0 0 9 0 0 _ _ emptyGrid_WF))

theorem generateSolvedGrid_WF (rand : Rand) : WF (generateSolvedGrid rand) :=
  solveGridAux_WF 82 _ (seedGrid_WF rand)

/-- Whenever the internal solver call of `generateSolvedGrid` succeeds
on the seeded grid (which the mathematics of diagonal seeding always
grants), the visible count of the generated puzzle equals the drawn
target and lies in the difficulty tier's inclusive range. -/
theorem generateSudokuPuzzle_visible (rand : Rand) (d : Difficulty)
    (hsolved : (solveGrid (seedGrid rand)).1 = true) :
    (DIFFICULTY_CONFIGS d).minVisible ≤ nonEmptyCount (generateSudokuPuzzle rand d) ∧
    nonEmptyCount (generateSudokuPuzzle rand d) ≤ (DIFFICULTY_CONFIGS d).maxVisible := by
  have hWFs : WF (generateSolvedGrid rand) := generateSolvedGrid_WF rand
  have hfull := (solveGridAux_sound 82 (seedGrid rand) (seedGrid_WF rand) hsolved).1
  have hperm : (shuffleAux rand 80 28 allPositions).Perm allPositions :=
    shuffleAux_perm rand 80 28 allPositions (by rw [allPositions_length])
  have hnodup : (shuffleAux rand 80 28 allPositions).Nodup :=
    hperm.nodup_iff.2 allPositions_nodup
  have hlen : (shuffleAux rand 80 28 allPositions).length = 81 := by
    rw [hperm.length_eq, allPositions_length]
  set w := (DIFFICULTY_CONFIGS d).maxVisible - (DIFFICULTY_CONFIGS d).minVisible + 1 with hw
  set v := rand 27 % w + (DIFFICULTY_CONFIGS d).minVisible with hv
  have hvlo : (DIFFICULTY_CONFIGS d).minVisible ≤ v := by omega
  have hvhi : v ≤ (DIFFICULTY_CONFIGS d).maxVisible := by
    have hwpos : 0 < w := by omega
    have hmod := Nat.mod_lt (rand 27) hwpos
    have hminmax : (DIFFICULTY_CONFIGS d).minVisible ≤ (DIFFICULTY_CONFIGS d).maxVisible := by
      cases d <;> decide
    omega
  have hvle : v ≤ 81 := by
    have hle81 : (DIFFICULTY_CONFIGS d).maxVisible ≤ 81 := by
      cases d <;> decide
    omega
  have htakelen : ((shuffleAux rand 80 28 allPositions).take (81 - v)).length = 81 - v := by
    rw [List.length_take, hlen]
    omega
  have htakend : ((shuffleAux rand 80 28 allPositions).take (81 - v)).Nodup :=
    hnodup.sublist (List.take_sublist _ _)
  have htakeok : ∀ p ∈ (shuffleAux rand 80 28 allPositions).take (81 - v),
      p.1 < 9 ∧ p.2 < 9 ∧ getCell (generateSolvedGrid rand) p.1 p.2 ≠ none := by
    intro p hp
    have hp2 : p ∈ allPositions :=
      hperm.mem_iff.1 ((List.take_sublist _ _).mem hp)
    rcases p with ⟨a, b⟩
    obtain ⟨ha, hb⟩ := (mem_allPositions a b).1 hp2
    exact ⟨ha, hb, hfull a ha b hb⟩
  have hempties0 : emptiesCount (generateSolvedGrid rand) = 0 := by
    unfold emptiesCount
    rw [List.countP_eq_zero]
    intro k hk
    rw [List.mem_range] at hk
    simp only [decide_eq_true_eq]
    exact hfull (k / 9) (by omega) (k % 9) (by omega)
  have hcount : emptiesCount (generateSudokuPuzzle rand d) = 81 - v := by
    show emptiesCount (blankCells ((shuffleAux rand 80 28 allPositions).take (81 - v))
      (generateSolvedGrid rand)) = 81 - v
    rw [emptiesCount_blankCells _ _ hWFs htakend htakeok, hempties0, htakelen]
    omega
  have hsum := nonEmptyCount_add_emptiesCount (generateSudokuPuzzle rand d)
  omega

/-! ### The C4 statement, conditional on the seeding being solvable

`fillBox` fills its box with nine distinct digits (it draws from the
`numbers` pool without replacement), the three seeded boxes are mutually
non-peer, so whenever the internal solver call of `generateSolvedGrid`
succeeds, the solved grid is a fully valid Sudoku grid and every puzzle
blanked from it is completable — hence solvable by `solveGrid`. -/

theorem list_getD_not_mem_eraseIdx :
    ∀ (l : List Int) (i : Nat) (d : Int), l.Nodup → i < l.length →
      l.getD i d ∉ l.eraseIdx i := by
  intro l
  induction l with
  | nil => intro i d _ h; simp at h
  | cons x t ih =>
    intro i d hnd hi
    cases i with
    | zero =>
      simp only [List.eraseIdx, List.getD_cons_zero]
      exact (List.nodup_cons.1 hnd).1
    | succ j =>
      simp only [List.eraseIdx, List.getD_cons_succ]
      rw [List.mem_cons]
      push_neg
      constructor
      · intro habs
        have hxt : x ∈ t := by
          rw [← habs, List.getD_eq_getElem _ _ (by simpa using hi)]
          exact List.getElem_mem _
        exact (List.nodup_cons.1 hnd).1 hxt
      · exact ih j d (List.nodup_cons.1 hnd).2 (by simpa using hi)

theorem list_getD_mem_or_default {α : Type} (l : List α) (i : Nat) (d : α) :
    l.getD i d ∈ l ∨ l.getD i d = d := by
  rcases Nat.lt_or_ge i l.length with h | h
  · left
    rw [List.getD_eq_getElem _ _ h]
    exact List.getElem_mem h
  · right
    exact List.getD_eq_default _ _ h

theorem getCell_emptyGrid (r c : Nat) : getCell emptyGrid r c = none := by
  unfold getCell
  rcases list_getD_mem_or_default emptyGrid r [] with hrow | hrow
  · have hrow2 : emptyGrid.getD r [] ∈
        List.replicate 9 (List.replicate 9 (none : Cell)) := hrow
    rw [List.eq_of_mem_replicate hrow2]
    rcases list_getD_mem_or_default (List.replicate 9 (none : Cell)) c none
      with hc | hc
    · exact List.eq_of_mem_replicate hc
    · exact hc
  · rw [hrow]
    rfl

theorem getCell_oob (g : Grid) (hWF : WF g) (r c : Nat) (h : 9 ≤ r ∨ 9 ≤ c) :
    getCell g r c = none := by
  unfold getCell
  rcases Nat.lt_or_ge r 9 with hr | hr
  · have hc : 9 ≤ c := by rcases h with h9 | h9 <;> omega
    have hrl : r < g.length := by rw [hWF.1]; exact hr
    have hrow : (g.getD r []).length = 9 := by
      rw [List.getD_eq_getElem _ _ hrl]
      exact hWF.2 _ (List.getElem_mem hrl)
    exact List.getD_eq_default _ _ (by rw [hrow]; omega)
  · have h0 : g.getD r [] = [] :=
      List.getD_eq_default _ _ (by rw [hWF.1]; exact hr)
    rw [h0]
    rfl

/-- Cells outside the target box are untouched by `fillBox`'s loop. -/
theorem fillBoxAux_outside (rand : Rand) (sR sC : Nat) :
    ∀ (fuel t k : Nat) (g : Grid) (numbers : List Int) (r c : Nat),
      t + fuel ≤ 9 → ¬(r / 3 = sR ∧ c / 3 = sC) →
      getCell (fillBoxAux rand sR sC fuel t k g numbers) r c = getCell g r c := by
  intro fuel
  induction fuel with
  | zero => intro t k g numbers r c _ _; rfl
  | succ m ih =>
    intro t k g numbers r c hft hout
    rw [fillBoxAux, ih (t + 1) (k + 1) _ _ r c (by omega) hout]
    apply getCell_setCell_ne
    rintro ⟨rfl, rfl⟩
    exact hout ⟨by omega, by omega⟩

/-- Loop invariant of `fillBox`: cells `0..t-1` of the box (row-major
order) hold distinct digits not in the remaining pool, so the finished
box holds nine distinct digits. -/
theorem fillBoxAux_spec (rand : Rand) (sR sC : Nat) (hsR : sR < 3) (hsC : sC < 3) :
    ∀ (fuel t k : Nat) (g : Grid) (numbers : List Int),
      WF g → t + fuel = 9 → numbers.length = fuel → numbers.Nodup →
      (∀ n ∈ numbers, n ∈ digits) →
      (∀ u, u < t → ∃ n ∈ digits, n ∉ numbers ∧
        getCell g (sR * 3 + u / 3) (sC * 3 + u % 3) = some (JsNum.int n)) →
      (∀ u u2, u < t → u2 < t → u ≠ u2 →
        getCell g (sR * 3 + u / 3) (sC * 3 + u % 3) ≠
          getCell g (sR * 3 + u2 / 3) (sC * 3 + u2 % 3)) →
      (∀ u, u < 9 → ∃ n ∈ digits,
        getCell (fillBoxAux rand sR sC fuel t k g numbers)
          (sR * 3 + u / 3) (sC * 3 + u % 3) = some (JsNum.int n)) ∧
      (∀ u u2, u < 9 → u2 < 9 → u ≠ u2 →
        getCell (fillBoxAux rand sR sC fuel t k g numbers)
          (sR * 3 + u / 3) (sC * 3 + u % 3) ≠
          getCell (fillBoxAux rand sR sC fuel t k g numbers)
            (sR * 3 + u2 / 3) (sC * 3 + u2 % 3)) := by
  intro fuel
  induction fuel with
  | zero =>
    intro t k g numbers _ ht _ _ _ hvals hdist
    constructor
    · intro u hu
      obtain ⟨n, hn, _, hcell⟩ := hvals u (by omega)
      exact ⟨n, hn, hcell⟩
    · intro u u2 hu hu2 hne
      exact hdist u u2 (by omega) (by omega) hne
  | succ m ih =>
    intro t k g numbers hWF ht hlen hnd hsub hvals hdist
    have hlpos : 0 < numbers.length := by omega
    have hidx : rand k % numbers.length < numbers.length := Nat.mod_lt _ hlpos
    have hvalmem : numbers.getD (rand k % numbers.length) 0 ∈ numbers := by
      rw [List.getD_eq_getElem _ _ hidx]
      exact List.getElem_mem hidx
    have hvalnotr : numbers.getD (rand k % numbers.length) 0 ∉
        numbers.eraseIdx (rand k % numbers.length) :=
      list_getD_not_mem_eraseIdx numbers (rand k % numbers.length) 0 hnd hidx
    have hrowt : sR * 3 + t / 3 < 9 := by omega
    have hcolt : sC * 3 + t % 3 < 9 := by omega
    have hcellt : getCell (setCell g (sR * 3 + t / 3) (sC * 3 + t % 3)
          (some (JsNum.int (numbers.getD (rand k % numbers.length) 0))))
        (sR * 3 + t / 3) (sC * 3 + t % 3)
        = some (JsNum.int (numbers.getD (rand k % numbers.length) 0)) :=
      getCell_setCell_self g _ _ _ hWF hrowt hcolt
    have hcellu : ∀ u, u < 9 → u ≠ t →
        getCell (setCell g (sR * 3 + t / 3) (sC * 3 + t % 3)
            (some (JsNum.int (numbers.getD (rand k % numbers.length) 0))))
          (sR * 3 + u / 3) (sC * 3 + u % 3)
        = getCell g (sR * 3 + u / 3) (sC * 3 + u % 3) := by
      intro u hu hne
      apply getCell_setCell_ne
      rintro ⟨h1, h2⟩
      omega
    have hvals2 : ∀ u, u < t + 1 → ∃ n ∈ digits,
        n ∉ numbers.eraseIdx (rand k % numbers.length) ∧
        getCell (setCell g (sR * 3 + t / 3) (sC * 3 + t % 3)
            (some (JsNum.int (numbers.getD (rand k % numbers.length) 0))))
          (sR * 3 + u / 3) (sC * 3 + u % 3) = some (JsNum.int n) := by
      intro u hu
      rcases eq_or_ne u t with rfl | hne
      · exact ⟨_, hsub _ hvalmem, hvalnotr, hcellt⟩
      · obtain ⟨n, hn, hnn, hcell⟩ := hvals u (by omega)
        refine ⟨n, hn, ?_, ?_⟩
        · intro habs
          exact hnn ((List.eraseIdx_sublist _ _).mem habs)
        · rw [hcellu u (by omega) hne]
          exact hcell
    have hdist2 : ∀ u u2, u < t + 1 → u2 < t + 1 → u ≠ u2 →
        getCell (setCell g (sR * 3 + t / 3) (sC * 3 + t % 3)
            (some (JsNum.int (numbers.getD (rand k % numbers.length) 0))))
          (sR * 3 + u / 3) (sC * 3 + u % 3) ≠
        getCell (setCell g (sR * 3 + t / 3) (sC * 3 + t % 3)
            (some (JsNum.int (numbers.getD (rand k % numbers.length) 0))))
          (sR * 3 + u2 / 3) (sC * 3 + u2 % 3) := by
      intro u u2 hu hu2 hne
      rcases eq_or_ne u t with rfl | hut
      · rw [hcellt, hcellu u2 (by omega) (by omega)]
        obtain ⟨n, _, hnn, hcell⟩ := hvals u2 (by omega)
        rw [hcell]
        intro habs
        injection habs with h1
        injection h1 with h2
        exact hnn (h2 ▸ hvalmem)
      · rcases eq_or_ne u2 t with rfl | hu2t
        · rw [hcellt, hcellu u (by omega) hut]
          obtain ⟨n, _, hnn, hcell⟩ := hvals u (by omega)
          rw [hcell]
          intro habs
          injection habs with h1
          injection h1 with h2
          exact hnn (by rw [h2]; exact hvalmem)
        · rw [hcellu u (by omega) hut, hcellu u2 (by omega) hu2t]
          exact hdist u u2 (by omega) (by omega) hne
    have hmain := ih (t + 1) (k + 1)
      (setCell g (sR * 3 + t / 3) (sC * 3 + t % 3)
        (some (JsNum.int (numbers.getD (rand k % numbers.length) 0))))
      (numbers.eraseIdx (rand k % numbers.length))
      (WF_setCell g _ _ _ hWF) (by omega)
      (by rw [List.length_eraseIdx, if_pos hidx]; omega)
      ((List.eraseIdx_sublist _ _).nodup hnd)
      (fun n hn => hsub n ((List.eraseIdx_sublist _ _).mem hn))
      hvals2 hdist2
    rw [fillBoxAux]
    exact hmain

theorem fillBox_spec (rand : Rand) (k : Nat) (g : Grid) (sR sC : Nat)
    (hWF : WF g) (hsR : sR < 3) (hsC : sC < 3) :
    (∀ u, u < 9 → ∃ n ∈ digits,
      getCell (fillBox rand k g sR sC) (sR * 3 + u / 3) (sC * 3 + u % 3)
        = some (JsNum.int n)) ∧
    (∀ u u2, u < 9 → u2 < 9 → u ≠ u2 →
      getCell (fillBox rand k g sR sC) (sR * 3 + u / 3) (sC * 3 + u % 3) ≠
        getCell (fillBox rand k g sR sC) (sR * 3 + u2 / 3) (sC * 3 + u2 % 3)) :=
  fillBoxAux_spec rand sR sC hsR hsC 9 0 k g digits hWF rfl rfl
    (by decide) (fun n hn => hn)
    (fun u hu => absurd hu (Nat.not_lt_zero u))
    (fun u u2 hu hu2 hne => absurd hu (Nat.not_lt_zero u))

theorem fillBox_outside (rand : Rand) (k : Nat) (g : Grid) (sR sC : Nat)
    (r c : Nat) (h : ¬(r / 3 = sR ∧ c / 3 = sC)) :
    getCell (fillBox rand k g sR sC) r c = getCell g r c :=
  fillBoxAux_outside rand sR sC 9 0 k g digits r c (by omega) h

/-- Each of the three diagonal boxes of the seeded grid holds nine
distinct digit values. -/
theorem seedGrid_box (rand : Rand) (dd : Nat) (hdd : dd < 3) :
    (∀ u, u < 9 → ∃ n ∈ digits,
      getCell (seedGrid rand) (dd * 3 + u / 3) (dd * 3 + u % 3)
        = some (JsNum.int n)) ∧
    (∀ u u2, u < 9 → u2 < 9 → u ≠ u2 →
      getCell (seedGrid rand) (dd * 3 + u / 3) (dd * 3 + u % 3) ≠
        getCell (seedGrid rand) (dd * 3 + u2 / 3) (dd * 3 + u2 % 3)) := by
  have hWF0 : WF (fillBox rand 0 emptyGrid 0 0) :=
    fillBoxAux_WF rand 0 0 9 0 0 _ _ emptyGrid_WF
  have hWF1 : WF (fillBox rand 9 (fillBox rand 0 emptyGrid 0 0) 1 1) :=
    fillBoxAux_WF rand 1 1 9 0 9 _ _ hWF0
  interval_cases dd
  · have hspec := fillBox_spec rand 0 emptyGrid 0 0 emptyGrid_WF
      (by omega) (by omega)
    have htrans : ∀ u, u < 9 →
        getCell (seedGrid rand) (0 * 3 + u / 3) (0 * 3 + u % 3)
        = getCell (fillBox rand 0 emptyGrid 0 0)
            (0 * 3 + u / 3) (0 * 3 + u % 3) := by
      intro u hu
      have h1 : getCell (seedGrid rand) (0 * 3 + u / 3) (0 * 3 + u % 3)
          = getCell (fillBox rand 9 (fillBox rand 0 emptyGrid 0 0) 1 1)
              (0 * 3 + u / 3) (0 * 3 + u % 3) :=
        fillBox_outside rand 18 _ 2 2 _ _ (by omega)
      have h2 : getCell (fillBox rand 9 (fillBox rand 0 emptyGrid 0 0) 1 1)
            (0 * 3 + u / 3) (0 * 3 + u % 3)
          = getCell (fillBox rand 0 emptyGrid 0 0)
              (0 * 3 + u / 3) (0 * 3 + u % 3) :=
        fillBox_outside rand 9 _ 1 1 _ _ (by omega)
      rw [h1, h2]
    constructor
    · intro u hu
      obtain ⟨n, hn, hcell⟩ := hspec.1 u hu
      exact ⟨n, hn, by rw [htrans u hu]; exact hcell⟩
    · intro u u2 hu hu2 hne
      rw [htrans u hu, htrans u2 hu2]
      exact hspec.2 u u2 hu hu2 hne
  · have hspec := fillBox_spec rand 9 (fillBox rand 0 emptyGrid 0 0) 1 1 hWF0
      (by omega) (by omega)
    have htrans : ∀ u, u < 9 →
        getCell (seedGrid rand) (1 * 3 + u / 3) (1 * 3 + u % 3)
        = getCell (fillBox rand 9 (fillBox rand 0 emptyGrid 0 0) 1 1)
            (1 * 3 + u / 3) (1 * 3 + u % 3) := by
      intro u hu
      exact fillBox_outside rand 18 _ 2 2 _ _ (by omega)
    constructor
    · intro u hu
      obtain ⟨n, hn, hcell⟩ := hspec.1 u hu
      exact ⟨n, hn, by rw [htrans u hu]; exact hcell⟩
    · intro u u2 hu hu2 hne
      rw [htrans u hu, htrans u2 hu2]
      exact hspec.2 u u2 hu hu2 hne
  · have hspec := fillBox_spec rand 18
      (fillBox rand 9 (fillBox rand 0 emptyGrid 0 0) 1 1) 2 2 hWF1
      (by omega) (by omega)
    exact hspec

/-- Cells off the three diagonal boxes stay empty in the seeded grid. -/
theorem seedGrid_offdiag (rand : Rand) (r c : Nat) (h : r / 3 ≠ c / 3) :
    getCell (seedGrid rand) r c = none := by
  have h1 : getCell (seedGrid rand) r c
      = getCell (fillBox rand 9 (fillBox rand 0 emptyGrid 0 0) 1 1) r c :=
    fillBox_outside rand 18 _ 2 2 r c (by omega)
  have h2 : getCell (fillBox rand 9 (fillBox rand 0 emptyGrid 0 0) 1 1) r c
      = getCell (fillBox rand 0 emptyGrid 0 0) r c :=
    fillBox_outside rand 9 _ 1 1 r c (by omega)
  have h3 : getCell (fillBox rand 0 emptyGrid 0 0) r c
      = getCell emptyGrid r c :=
    fillBox_outside rand 0 _ 0 0 r c (by omega)
  rw [h1, h2, h3, getCell_emptyGrid]

/-- A non-empty cell of the seeded grid is in range, lies in a diagonal
box, and holds a digit. -/
theorem seedGrid_filled (rand : Rand) (r c : Nat)
    (h : getCell (seedGrid rand) r c ≠ none) :
    r < 9 ∧ c < 9 ∧ r / 3 = c / 3 ∧
    ∃ n ∈ digits, getCell (seedGrid rand) r c = some (JsNum.int n) := by
  have hr : r < 9 := by
    by_contra hge
    exact h (getCell_oob _ (seedGrid_WF rand) r c (Or.inl (by omega)))
  have hc : c < 9 := by
    by_contra hge
    exact h (getCell_oob _ (seedGrid_WF rand) r c (Or.inr (by omega)))
  have hdiag : r / 3 = c / 3 := by
    by_contra hne
    exact h (seedGrid_offdiag rand r c hne)
  refine ⟨hr, hc, hdiag, ?_⟩
  obtain ⟨n, hn, hcell⟩ := (seedGrid_box rand (r / 3) (by omega)).1
    ((r % 3) * 3 + c % 3) (by omega)
  have hco1 : r / 3 * 3 + ((r % 3) * 3 + c % 3) / 3 = r := by omega
  have hco2 : r / 3 * 3 + ((r % 3) * 3 + c % 3) % 3 = c := by omega
  rw [hco1, hco2] at hcell
  exact ⟨n, hn, hcell⟩

/-- Two distinct filled cells of the same diagonal box of the seeded
grid hold different values. -/
theorem seedGrid_box_distinct_cells (rand : Rand) (r c r2 c2 : Nat)
    (hr : r < 9) (_hc : c < 9) (_hr2 : r2 < 9) (_hc2 : c2 < 9)
    (hd1 : r / 3 = c / 3) (hd2 : r2 / 3 = c2 / 3)
    (hbox : r2 / 3 = r / 3) (hne : ¬(r2 = r ∧ c2 = c)) :
    getCell (seedGrid rand) r2 c2 ≠ getCell (seedGrid rand) r c := by
  have h := (seedGrid_box rand (r / 3) (by omega)).2
    ((r2 % 3) * 3 + c2 % 3) ((r % 3) * 3 + c % 3)
    (by omega) (by omega) (by omega)
  have hco2a : r / 3 * 3 + ((r2 % 3) * 3 + c2 % 3) / 3 = r2 := by omega
  have hco2b : r / 3 * 3 + ((r2 % 3) * 3 + c2 % 3) % 3 = c2 := by omega
  have hco1a : r / 3 * 3 + ((r % 3) * 3 + c % 3) / 3 = r := by omega
  have hco1b : r / 3 * 3 + ((r % 3) * 3 + c % 3) % 3 = c := by omega
  rw [hco2a, hco2b, hco1a, hco1b] at h
  exact h

/-- Whenever the internal solver call succeeds, every cell of the
solved grid holds a digit. -/
theorem generateSolvedGrid_value (rand : Rand)
    (hsolved : (solveGrid (seedGrid rand)).1 = true) (r c : Nat)
    (hr : r < 9) (hc : c < 9) :
    ∃ n ∈ digits, getCell (generateSolvedGrid rand) r c = some (JsNum.int n) := by
  have hcomp := solveGridAux_sound 82 (seedGrid rand) (seedGrid_WF rand) hsolved
  rcases hseed : getCell (seedGrid rand) r c with _ | v
  · exact (hcomp.2.2 r hr c hc hseed).1
  · obtain ⟨_, _, _, n, hn, hcell⟩ := seedGrid_filled rand r c (by rw [hseed]; simp)
    refine ⟨n, hn, ?_⟩
    have hk : getCell (generateSolvedGrid rand) r c
        = getCell (seedGrid rand) r c :=
      hcomp.2.1 r hr c hc (by rw [hseed]; simp)
    rw [hk]
    exact hcell

/-- Whenever the internal solver call succeeds, no two distinct peer
cells of the solved grid hold the same value. -/
theorem generateSolvedGrid_valid (rand : Rand)
    (hsolved : (solveGrid (seedGrid rand)).1 = true) (r c r2 c2 : Nat)
    (hr : r < 9) (hc : c < 9) (hr2 : r2 < 9) (hc2 : c2 < 9)
    (hpeer : isPeer r c r2 c2) (hne : ¬(r2 = r ∧ c2 = c)) :
    getCell (generateSolvedGrid rand) r2 c2
      ≠ getCell (generateSolvedGrid rand) r c := by
  have hcomp := solveGridAux_sound 82 (seedGrid rand) (seedGrid_WF rand) hsolved
  rcases hseed : getCell (seedGrid rand) r c with _ | v
  · exact (hcomp.2.2 r hr c hc hseed).2 r2 hr2 c2 hc2 ⟨hpeer, hne⟩
  · rcases hseed2 : getCell (seedGrid rand) r2 c2 with _ | v2
    · have hpeer2 : isPeer r2 c2 r c := isPeer_symm r c r2 c2 hpeer
      have hne2 : ¬(r = r2 ∧ c = c2) := by
        rintro ⟨h1, h2⟩
        exact hne ⟨h1.symm, h2.symm⟩
      have h := (hcomp.2.2 r2 hr2 c2 hc2 hseed2).2 r hr c hc ⟨hpeer2, hne2⟩
      exact fun habs => h habs.symm
    · have hk1 : getCell (generateSolvedGrid rand) r c
          = getCell (seedGrid rand) r c :=
        hcomp.2.1 r hr c hc (by rw [hseed]; simp)
      have hk2 : getCell (generateSolvedGrid rand) r2 c2
          = getCell (seedGrid rand) r2 c2 :=
        hcomp.2.1 r2 hr2 c2 hc2 (by rw [hseed2]; simp)
      rw [hk1, hk2]
      obtain ⟨_, _, hd1, _⟩ := seedGrid_filled rand r c (by rw [hseed]; simp)
      obtain ⟨_, _, hd2, _⟩ := seedGrid_filled rand r2 c2 (by rw [hseed2]; simp)
      have hbox : r2 / 3 = r / 3 := by
        rcases hpeer with h | h | h
        · rw [h]
        · omega
        · exact h.1
      exact seedGrid_box_distinct_cells rand r c r2 c2 hr hc hr2 hc2
        hd1 hd2 hbox hne

/-- A grid each of whose cells agrees with a fully valid grid wherever
it is filled is completed by that grid. -/
theorem Completion_of_subgrid (g g2 : Grid)
    (hfull : ∀ r < 9, ∀ c < 9, ∃ n ∈ digits,
      getCell g2 r c = some (JsNum.int n))
    (hvalid : ∀ r < 9, ∀ c < 9, ∀ r2 < 9, ∀ c2 < 9,
      isPeer r c r2 c2 ∧ ¬(r2 = r ∧ c2 = c) →
      getCell g2 r2 c2 ≠ getCell g2 r c)
    (hsub : ∀ r < 9, ∀ c < 9, getCell g r c ≠ none →
      getCell g r c = getCell g2 r c) :
    Completion g g2 := by
  refine ⟨?_, ?_, ?_⟩
  · intro r hr c hc
    obtain ⟨n, _, h⟩ := hfull r hr c hc
    rw [h]
    simp
  · intro r hr c hc hne
    exact (hsub r hr c hc hne).symm
  · intro r hr c hc _
    exact ⟨hfull r hr c hc,
      fun r2 hr2 c2 hc2 hp => hvalid r hr c hc r2 hr2 c2 hc2 hp⟩

/-- The C4 statement, conditional on the seeding being solvable (which
the mathematics of diagonal seeding always grants): the generated
puzzle, obtained by blanking cells of the solved grid, is itself solved
successfully by `solveGrid`. -/
theorem generateSudokuPuzzle_solvable (rand : Rand) (d : Difficulty)
    (hsolved : (solveGrid (seedGrid rand)).1 = true) :
    (solveGrid (generateSudokuPuzzle rand d)).1 = true := by
  have hWFs : WF (generateSolvedGrid rand) := generateSolvedGrid_WF rand
  set w := (DIFFICULTY_CONFIGS d).maxVisible - (DIFFICULTY_CONFIGS d).minVisible + 1
    with hw
  set v := rand 27 % w + (DIFFICULTY_CONFIGS d).minVisible with hv
  set taken := (shuffleAux rand 80 28 allPositions).take (81 - v) with htk
  have hpz : generateSudokuPuzzle rand d
      = blankCells taken (generateSolvedGrid rand) := rfl
  have hWFp : WF (generateSudokuPuzzle rand d) := by
    rw [hpz]
    exact blankCells_WF _ _ hWFs
  have hcomp : Completion (generateSudokuPuzzle rand d) (generateSolvedGrid rand) := by
    apply Completion_of_subgrid
    · intro r hr c hc
      exact generateSolvedGrid_value rand hsolved r c hr hc
    · intro r hr c hc r2 hr2 c2 hc2 hp
      exact generateSolvedGrid_valid rand hsolved r c r2 c2 hr hc hr2 hc2 hp.1 hp.2
    · intro r hr c hc hne
      rw [hpz] at hne ⊢
      have hnotmem : (r, c) ∉ taken := by
        intro hmem
        exact hne (getCell_blankCells_mem taken _ r c hWFs hr hc hmem)
      exact getCell_blankCells_not_mem taken _ r c hnotmem
  exact solveGridAux_complete 82 _ hWFp
    (by have := emptiesCount_le (generateSudokuPuzzle rand d); omega)
    ⟨_, hcomp⟩

end Sudoku
